import Mathlib

/-!
# LazyLab: a shallow embedding of the session orchestrator

Go strings are modelled as Lean `String`s (sequences of Unicode code points;
the regular-expression engine and the `strings` package decode Go strings the
same way).  Go's `error` is modelled as an `Option` of a structured error
value, `none` being `nil`.
-/

namespace LazyLab

/-! ## Regular expressions (the fragment `regexp.MustCompile` receives) -/

/-- Regular-expression syntax: the anchors, a character class given by its
inclusive ranges, concatenation and one-or-more repetition. -/
inductive Regex where
  | bol : Regex
  | eol : Regex
  | cls : List (Char × Char) → Regex
  | seq : Regex → Regex → Regex
  | plus : Regex → Regex

/-- A position of the matcher in the text: whether it is the beginning of the
text, and the input that is still unread. -/
structure Pos where
  atStart : Bool
  rest : List Char
deriving DecidableEq, Repr

/-- Membership of a character in a class of inclusive ranges. -/
def inClass (rs : List (Char × Char)) (c : Char) : Bool :=
  rs.any (fun r => decide (r.1 ≤ c) && decide (c ≤ r.2))

/-- One or more rounds of `f`, collecting every position reached; the fuel
bounds the number of rounds. -/
def iterPlus (f : Pos → List Pos) : Nat → List Pos → List Pos
  | 0, _ => []
  | n + 1, ps => ps.flatMap f ++ iterPlus f n (ps.flatMap f)

/-- All positions at which a match of the expression that starts at `p` can
end. -/
def Regex.ends : Regex → Pos → List Pos
  | .bol, p => if p.atStart then [p] else []
  | .eol, p => if p.rest.isEmpty then [p] else []
  | .cls rs, p =>
    match p.rest with
    | [] => []
    | c :: cs => if inClass rs c then [⟨false, cs⟩] else []
  | .seq a b, p => (a.ends p).flatMap b.ends
  | .plus a, p => iterPlus a.ends (p.rest.length + 1) [p]

/-- Unanchored search: is there a match starting at this position or at a
later one. -/
def Regex.search (re : Regex) : Bool → List Char → Bool
  | st, [] => !(re.ends ⟨st, []⟩).isEmpty
  | st, c :: cs => !(re.ends ⟨st, c :: cs⟩).isEmpty || Regex.search re false cs

/-- The method `(*Regexp).MatchString`: the text contains a match. -/
def Regex.MatchString (re : Regex) (s : String) : Bool :=
  re.search true s.data

/-- The ranges of `a-zA-Z0-9`. -/
def alnumRanges : List (Char × Char) := [('a', 'z'), ('A', 'Z'), ('0', '9')]

/-- The pattern `^[a-zA-Z0-9][a-zA-Z0-9_.-]+$` (docker_runner.go, line 27). -/
def dockerNameRegex : Regex :=
  .seq .bol
    (.seq (.cls alnumRanges)
      (.seq (.plus (.cls (alnumRanges ++ [('_', '_'), ('.', '.'), ('-', '-')]))) .eol))

/-! ## Errors returned by the runner -/

/-- The errors `Run` and `ValidateContainerName` build with `fmt.Errorf`; the
 cause of a wrapped error is kept as its message. -/
inductive RunError where
  | invalidName (name : String)
  | nameExists (name : String)
  | copyPathInvalid (cause : String)
  | mountNotAbsolute (container : String)
  | mountHostInvalid (cause : String)
  | dockerRunFailed (cause : String)
  | dockerCpFailed (host : String) (cause : String)
deriving DecidableEq, Repr

/-- ValidateContainerName checks the Docker name constraints (validate.go). -/
def ValidateContainerName (name : String) : Option RunError :=
  if !dockerNameRegex.MatchString name then some (.invalidName name) else none

/-- An ASCII letter or digit. -/
def isAsciiAlnum (c : Char) : Bool :=
  (decide ('a' ≤ c) && decide (c ≤ 'z')) || (decide ('A' ≤ c) && decide (c ≤ 'Z'))
    || (decide ('0' ≤ c) && decide (c ≤ '9'))

/-- An ASCII letter, a digit, or one of `_`, `.`, `-`. -/
def isNameBody (c : Char) : Bool :=
  isAsciiAlnum c || c == '_' || c == '.' || c == '-'

/-! ## Package `config` -/

/-- RuntimeConfig represents the full set of options to run a container
(config.go, lines 12-36). -/
structure RuntimeConfig where
  Packages : List String := []
  CopyPaths : List String := []
  Mounts : List String := []
  ContainerName : String := ""
  NamePrefix : String := ""
  PurgeOnExit : Bool := false
  DisableNetwork : Bool := false
  MemoryLimit : String := ""
  CPULimit : String := ""
  PidsLimit : Int := 0
  ReadOnlyRootFS : Bool := false
  WritablePaths : List String := []
  ForceAMD64 : Bool := false
  GracefulStop : Bool := false
  ProfileName : String := ""
  Image : String := ""
  Verbose : Bool := false
  CapDropAll : Bool := false
  NoNewPrivileges : Bool := false
  Shell : String := ""
  CachePackages : Bool := false
  User : String := ""
  PurgeCache : Bool := false
deriving DecidableEq, Repr

/-- MergeProfile merges profile-derived config (base) with CLI-derived config
(overrides) (config.go, lines 83-147).  The statements are kept in the order of
the source; `merged` is rebound at each assignment. -/
def MergeProfile (base : RuntimeConfig) (override : RuntimeConfig) : RuntimeConfig :=
  let merged : RuntimeConfig := base
  let merged : RuntimeConfig := if override.Packages.length > 0 then
    { merged with Packages := override.Packages } else merged
  let merged : RuntimeConfig := if override.CopyPaths.length > 0 then
    { merged with CopyPaths := override.CopyPaths } else merged
  let merged : RuntimeConfig := if override.Mounts.length > 0 then
    { merged with Mounts := override.Mounts } else merged
  let merged : RuntimeConfig := if override.ContainerName ≠ "" then
    { merged with ContainerName := override.ContainerName } else merged
  let merged : RuntimeConfig := if override.NamePrefix ≠ "" then
    { merged with NamePrefix := override.NamePrefix } else merged
  let merged : RuntimeConfig := if override.PurgeOnExit then { merged with PurgeOnExit := true } else merged
  let merged : RuntimeConfig := if override.DisableNetwork then
    { merged with DisableNetwork := true } else merged
  let merged : RuntimeConfig := if override.MemoryLimit ≠ "" then
    { merged with MemoryLimit := override.MemoryLimit } else merged
  let merged : RuntimeConfig := if override.CPULimit ≠ "" then
    { merged with CPULimit := override.CPULimit } else merged
  let merged : RuntimeConfig := if override.PidsLimit ≠ 0 then
    { merged with PidsLimit := override.PidsLimit } else merged
  let merged : RuntimeConfig := if override.ReadOnlyRootFS then
    { merged with ReadOnlyRootFS := true } else merged
  let merged : RuntimeConfig := if override.WritablePaths.length > 0 then
    { merged with WritablePaths := override.WritablePaths } else merged
  let merged : RuntimeConfig := if override.ForceAMD64 then { merged with ForceAMD64 := true } else merged
  let merged : RuntimeConfig := if override.Image ≠ "" then { merged with Image := override.Image } else merged
  let merged : RuntimeConfig := if override.Verbose then { merged with Verbose := true } else merged
  let merged : RuntimeConfig := if override.CapDropAll then { merged with CapDropAll := true } else merged
  let merged : RuntimeConfig := if override.NoNewPrivileges then
    { merged with NoNewPrivileges := true } else merged
  let merged : RuntimeConfig := if override.Shell ≠ "" then { merged with Shell := override.Shell } else merged
  let merged : RuntimeConfig := { merged with CachePackages := override.CachePackages || base.CachePackages }
  let merged : RuntimeConfig := if override.User ≠ "" then { merged with User := override.User } else merged
  let merged : RuntimeConfig := { merged with PurgeCache := override.PurgeCache || base.PurgeCache }
  merged

/-! ## The parts of Go's `strings` and `path/filepath` the program calls -/

/-- The function `strings.Contains`, on character lists. -/
def containsList (sub : List Char) : List Char → Bool
  | [] => sub.isPrefixOf []
  | c :: cs => sub.isPrefixOf (c :: cs) || containsList sub cs

/-- The function `strings.Contains`. -/
def strContains (s sub : String) : Bool := containsList sub.data s.data

/-- The function `strings.HasPrefix`. -/
def hasPrefix (s p : String) : Bool := p.data.isPrefixOf s.data

/-- The text before the first occurrence of a separator character. -/
def beforeSep (sep : Char) : List Char → List Char
  | [] => []
  | c :: cs => if c = sep then [] else c :: beforeSep sep cs

/-- The text after the first occurrence of a separator character. -/
def afterSep (sep : Char) : List Char → List Char
  | [] => []
  | c :: cs => if c = sep then cs else afterSep sep cs

/-- The call `strings.SplitN(m, ":", 2)` on a string that contains `:`, as the
pair `(parts[0], parts[1])`. -/
def splitColon2 (m : String) : String × String :=
  (String.mk (beforeSep ':' m.data), String.mk (afterSep ':' m.data))

/-- Splitting at every occurrence of a separator character (`strings.Split`
with a one-character separator); the result is never empty. -/
def splitOnChar (sep : Char) : List Char → List (List Char)
  | [] => [[]]
  | c :: cs =>
    if c = sep then [] :: splitOnChar sep cs
    else
      match splitOnChar sep cs with
      | [] => [[c]]
      | h :: t => (c :: h) :: t

/-- The predicate `unicode.IsSpace`. -/
def isSpace (c : Char) : Bool :=
  let n := c.toNat
  (9 ≤ n && n ≤ 13) || n == 0x20 || n == 0x85 || n == 0xA0 || n == 0x1680
    || (0x2000 ≤ n && n ≤ 0x200A) || n == 0x2028 || n == 0x2029 || n == 0x202F
    || n == 0x205F || n == 0x3000

/-- The function `strings.TrimSpace`. -/
def trimSpace (s : String) : String :=
  String.mk ((s.data.dropWhile isSpace).reverse.dropWhile isSpace).reverse

/-- The function `strings.Join`. -/
def strJoin (xs : List String) (sep : String) : String := sep.intercalate xs

/-- One element of a path in `filepath.Clean`: empty and `.` elements are
dropped, `..` removes the last kept element (if there is one that is not itself
a leading `..`), or is kept when the path is not rooted.  The kept elements are
held last-first. -/
def cleanStep (rooted : Bool) (kept : List (List Char)) (el : List Char) : List (List Char) :=
  if el = [] ∨ el = ['.'] then kept
  else if el = ['.', '.'] then
    match kept with
    | [] => if rooted then [] else [el]
    | top :: below => if top = ['.', '.'] then el :: kept else below
  else el :: kept

/-- The function `filepath.Clean` on a Unix host, on character lists. -/
def cleanList (path : List Char) : List Char :=
  if path = [] then ['.']
  else
    let rooted := path.head? == some '/'
    let kept := (splitOnChar '/' path).foldl (cleanStep rooted) []
    let body := ['/'].intercalate kept.reverse
    let out := if rooted then '/' :: body else body
    if out = [] then ['.'] else out

/-- The function `filepath.Clean` on a Unix host. -/
def filepathClean (path : String) : String := String.mk (cleanList path.data)

/-- The function `filepath.Join` on a Unix host: the elements from the first
non-empty one on, joined by `/` and cleaned. -/
def filepathJoin (elem : List String) : String :=
  match elem.dropWhile (fun e => e == "") with
  | [] => ""
  | es => filepathClean (strJoin es "/")

/-- The function `filepath.Base` on a Unix host. -/
def filepathBase (path : String) : String :=
  if path = "" then "."
  else
    let stripped := (path.data.reverse.dropWhile (fun c => c == '/')).reverse
    let last := (stripped.reverse.takeWhile (fun c => c != '/')).reverse
    if last = [] then "/" else String.mk last

/-- The function `filepath.IsAbs` on a Unix host. -/
def filepathIsAbs (path : String) : Bool := hasPrefix path "/"

/-! ## Package `dockerargs` -/

/-- The image-specific home directory (dockerargs.go, lines 70-75). -/
def guessHomeForImage (image : String) : String :=
  if image = "" ∨ strContains image "homebrew/brew" then "/home/linuxbrew" else "/root"

/-- The `--mount` value of one mount string `host[:container]`
(dockerargs.go, lines 48-60, the body of the loop over `cfg.Mounts`). -/
def bindMountArg (defaultHome : String) (m : String) : String :=
  let host := m
  let (host, container) :=
    if strContains m ":" then
      let parts := splitColon2 m
      (parts.1, parts.2)
    else
      (host, filepathJoin [defaultHome, filepathBase host])
  "type=bind,src=" ++ host ++ ",dst=" ++ container

/-- BuildRunArgs converts RuntimeConfig into docker run arguments (no exec)
(dockerargs.go, lines 12-68). -/
def BuildRunArgs (cfg : RuntimeConfig) : List String :=
  let args := ["run"]
  let args := if cfg.PurgeOnExit then args ++ ["--rm"] else args
  let args := if cfg.DisableNetwork then args ++ ["--network", "none"] else args
  let args := if cfg.ReadOnlyRootFS then args ++ ["--read-only"] else args
  let args := cfg.WritablePaths.foldl
    (fun args w => args ++ ["--mount", "type=tmpfs,destination=" ++ w]) args
  let args := if cfg.MemoryLimit ≠ "" then args ++ ["--memory", cfg.MemoryLimit] else args
  let args := if cfg.CPULimit ≠ "" then args ++ ["--cpus", cfg.CPULimit] else args
  let args := if cfg.PidsLimit ≠ 0 then
    args ++ ["--pids-limit", toString cfg.PidsLimit] else args
  let args := if cfg.ForceAMD64 then args ++ ["--platform", "linux/amd64"] else args
  let args := if cfg.CapDropAll then args ++ ["--cap-drop", "ALL"] else args
  let args := if cfg.NoNewPrivileges then
    args ++ ["--security-opt", "no-new-privileges:true"] else args
  let args := if cfg.User ≠ "" then args ++ ["--user", cfg.User] else args
  let defaultHome := guessHomeForImage cfg.Image
  let args := cfg.Mounts.foldl
    (fun args m => args ++ ["--mount", bindMountArg defaultHome m]) args
  let args := if cfg.ContainerName ≠ "" then args ++ ["--name", cfg.ContainerName] else args
  args

/-! ## Package `runner`: the environment

`Run` acts on the world only by starting `docker` subprocesses, by querying the
host file system, the clock and the random source, and by printing to the error
stream.  The subprocesses issued and the lines printed are recorded in order;
the engine and the host are parameters. -/

/-- How the standard streams of a subprocess are connected: inherited from the
terminal (`runCmdInherit`, `runCmdAttach`), standard output discarded
(`runCmdQuiet`), standard output captured in a buffer, or both output streams
closed. -/
inductive Stdio where
  | inherit
  | quiet
  | capture
  | silent
deriving DecidableEq, Repr

/-- One invocation of the engine: the arguments that follow the program name
`docker`. -/
structure Cmd where
  stdio : Stdio
  args : List String
deriving DecidableEq, Repr

/-- What `cmd.Run()` yields: its error (`none` for exit status 0) and what the
subprocess wrote to standard output. -/
structure Outcome where
  err : Option String
  out : String
deriving DecidableEq, Repr

/-- The container engine as the program sees it: the outcome of a command,
given the commands issued before it. -/
abbrev Engine := List Cmd → Cmd → Outcome

/-- A wall-clock reading, as `time.Now()` splits it for formatting. -/
structure Clock where
  year : Nat
  month : Nat
  day : Nat
  hour : Nat
  minute : Nat
  second : Nat
deriving DecidableEq, Repr

/-- The host: the working directory (`os.Getwd`), symlink resolution
(`filepath.EvalSymlinks`, `none` on failure), `os.Stat` (its error, `none` when
the path exists), the clock and the value `Intn(100000)` draws. -/
structure Host where
  cwd : Option String
  evalSymlinks : String → Option String
  stat : String → Option String
  now : Clock
  draw : Nat

/-- The observable record of a run: the engine commands issued and the lines
written to the error stream, both in order. -/
structure World where
  cmds : List Cmd
  stderr : List String
deriving DecidableEq, Repr

/-- A line printed with `fmt.Fprintln(os.Stderr, ...)`. -/
def World.log (w : World) (line : String) : World :=
  { w with stderr := w.stderr ++ [line] }

/-- Start one engine subprocess and wait for it. -/
def runDocker (eng : Engine) (w : World) (c : Cmd) : World × Outcome :=
  ({ w with cmds := w.cmds ++ [c] }, eng w.cmds c)

/-- The function runCmdInherit (docker_runner.go, lines 288-294). -/
def runCmdInherit (eng : Engine) (w : World) (args : List String) : World × Option String :=
  let r := runDocker eng w ⟨.inherit, args⟩
  (r.1, r.2.err)

/-- The function runCmdQuiet (docker_runner.go, lines 296-302). -/
def runCmdQuiet (eng : Engine) (w : World) (args : List String) : World × Option String :=
  let r := runDocker eng w ⟨.quiet, args⟩
  (r.1, r.2.err)

/-- The function runCmdAttach: same as inherit (docker_runner.go, lines 304-307). -/
def runCmdAttach (eng : Engine) (w : World) (args : List String) : World × Option String :=
  runCmdInherit eng w args

/-! ## Package `runner`: names -/

/-- Decimal digits of a number, padded with zeros on the left to the given
width (the verbs `%05d` of `fmt` and the fixed-width fields of `time.Format`). -/
def zeroPad (width n : Nat) : String :=
  let ds := Nat.toDigits 10 n
  String.mk (List.replicate (width - ds.length) '0' ++ ds)

/-- The call `time.Now().Format("20060102150405")`. -/
def formatStamp (t : Clock) : String :=
  zeroPad 4 t.year ++ zeroPad 2 t.month ++ zeroPad 2 t.day ++ zeroPad 2 t.hour
    ++ zeroPad 2 t.minute ++ zeroPad 2 t.second

/-- The function generateName (docker_runner.go, lines 309-315); `now` is the
clock reading and `rnd` the random draw. -/
def generateName (pfx : String) (now : Clock) (rnd : Nat) : String :=
  let pfx := if pfx = "" then "lazylab" else pfx
  pfx ++ "-" ++ formatStamp now ++ "-" ++ zeroPad 5 rnd

/-- The function shellQuote (docker_runner.go, lines 317-322). -/
def shellQuote (s : String) : String :=
  if s.data.any (fun c => " \"'$".data.contains c) then
    "'" ++ String.mk (s.data.flatMap (fun c => if c = Char.ofNat 39 then "'\\''".data else [c]))
      ++ "'"
  else s

/-- The command nameExists runs. -/
def nameExistsCmd : Cmd :=
  ⟨.capture, ["ps", "-a", "--format", "\x7b\x7b.Names\x7d\x7d"]⟩

/-- The function nameExists (docker_runner.go, lines 324-336). -/
def nameExists (eng : Engine) (w : World) (name : String) : World × Bool :=
  let r := runDocker eng w nameExistsCmd
  (r.1, (splitOnChar '\n' r.2.out.data).any (fun line => trimSpace (String.mk line) == name))

/-- The function mustExist (docker_runner.go, lines 216-224). -/
def mustExist (env : Host) (path : String) : Option String :=
  if path = "" then some "empty path" else env.stat path

/-- The function `filepath.Abs` on a Unix host. -/
def filepathAbs (env : Host) (path : String) : String :=
  if filepathIsAbs path then filepathClean path
  else
    match env.cwd with
    | none => ""
    | some wd => filepathJoin [wd, path]

/-! ## Package `runner`: probes and teardown -/

/-- The command hasShell runs. -/
def hasShellCmd (container name : String) : Cmd :=
  ⟨.silent, ["exec", container, "sh", "-lc",
    "command -v " ++ shellQuote name ++ " >/dev/null 2>&1"]⟩

/-- The function hasShell (docker_runner.go, lines 265-274). -/
def hasShell (eng : Engine) (w : World) (container name : String) : World × Bool :=
  let r := runDocker eng w (hasShellCmd container name)
  match r.2.err with
  | some _ => (r.1, false)
  | none => (r.1, true)

/-- The command brewInstalled runs. -/
def brewInstalledCmd (container pkg : String) : Cmd :=
  ⟨.silent, ["exec", container, "sh", "-lc",
    "brew list --formula --versions " ++ shellQuote pkg ++ " >/dev/null 2>&1"]⟩

/-- The function brewInstalled (docker_runner.go, lines 338-346). -/
def brewInstalled (eng : Engine) (w : World) (container pkg : String) : World × Bool :=
  let r := runDocker eng w (brewInstalledCmd container pkg)
  match r.2.err with
  | some _ => (r.1, false)
  | none => (r.1, true)

/-- The function getContainerHome (docker_runner.go, lines 226-239): the home
directory and the error.  The error is only ever compared with nil, and its
message is kept without the quoted operand. -/
def getContainerHome (eng : Engine) (w : World) (container : String) :
    World × String × Option String :=
  let r := runDocker eng w ⟨.capture, ["exec", container, "sh", "-lc", "printf %s \"$HOME\""]⟩
  match r.2.err with
  | some e => (r.1, "", some e)
  | none =>
    let home := trimSpace r.2.out
    if home = "" ∨ !hasPrefix home "/" then (r.1, "", some "invalid HOME")
    else (r.1, home, none)

/-- The loop of execInteractiveShell over the candidate names (lines 248-254):
the first name whose probe succeeds, or the empty string. -/
def chooseShell (eng : Engine) (container : String) : List String → World → World × String
  | [], w => (w, "")
  | name :: rest, w =>
    let r := hasShell eng w container name
    if r.2 then (r.1, name) else chooseShell eng container rest r.1

/-- The candidate names execInteractiveShell probes (docker_runner.go,
lines 243-247). -/
def shellCandidates (preferred : String) : List String :=
  let names : List String := []
  let names := if preferred ≠ "" then names ++ [preferred] else names
  let names := names ++ ["fish", "bash", "zsh", "sh"]
  names

/-- The function execInteractiveShell (docker_runner.go, lines 241-263). -/
def execInteractiveShell (eng : Engine) (w : World) (container : String) (preferred : String)
    (verbose : Bool) : World × Option String :=
  let names := shellCandidates preferred
  let r := chooseShell eng container names w
  let w := r.1
  let chosen := r.2
  if chosen = "" then (w, some "no usable shell found")
  else
    let args := ["exec", "-it", container, chosen]
    let w := if verbose then w.log ("+ docker " ++ strJoin args " ") else w
    runCmdAttach eng w args

/-- The function gracefulStop (docker_runner.go, lines 276-286). -/
def gracefulStop (eng : Engine) (w : World) (container : String) (cfg : RuntimeConfig) :
    World × Option RunError :=
  let w :=
    if cfg.GracefulStop then (runCmdInherit eng w ["stop", "--timeout", "10", container]).1
    else (runCmdInherit eng w ["kill", container]).1
  let w := if cfg.PurgeOnExit then (runCmdInherit eng w ["rm", container]).1 else w
  (w, none)

/-! ## Package `runner`: `Run` -/

/-- The host-path check of the copy-in paths (docker_runner.go, lines 43-55):
the normalised paths, or the error of the first path that does not exist. -/
def resolveCopyPaths (env : Host) : List String → Except RunError (List String)
  | [] => .ok []
  | p :: rest =>
    let p := if !filepathIsAbs p then filepathAbs env p else p
    let p := match env.evalSymlinks p with
      | some resolved => resolved
      | none => p
    match mustExist env p with
    | some err => .error (.copyPathInvalid err)
    | none =>
      match resolveCopyPaths env rest with
      | .error e => .error e
      | .ok ps => .ok (p :: ps)

/-- The body of the loop over `cfg.Mounts` (docker_runner.go, lines 57-82): the
normalised mount string, or the error. -/
def resolveMount (env : Host) (m : String) : Except RunError String :=
  let parts := splitColon2 m
  let host := if strContains m ":" then parts.1 else m
  let container := if strContains m ":" then parts.2 else ""
  if strContains m ":" ∧ container ≠ "" ∧ !hasPrefix container "/" then
    .error (.mountNotAbsolute container)
  else
    let host := if !filepathIsAbs host then filepathAbs env host else host
    let host := match env.evalSymlinks host with
      | some resolved => resolved
      | none => host
    match mustExist env host with
    | some err => .error (.mountHostInvalid err)
    | none => .ok (if container ≠ "" then host ++ ":" ++ container else host)

/-- The loop over `cfg.Mounts` (docker_runner.go, lines 56-83). -/
def resolveMounts (env : Host) : List String → Except RunError (List String)
  | [] => .ok []
  | m :: rest =>
    match resolveMount env m with
    | .error e => .error e
    | .ok m =>
      match resolveMounts env rest with
      | .error e => .error e
      | .ok ms => .ok (m :: ms)

/-- The image `Run` falls back to. -/
def defaultImage : String := "homebrew/brew:latest"

/-- What the preflight of `Run` fixes before anything is created: the instance
name, the configuration with normalised paths and the writable-path default
applied, and the image. -/
structure Prepared where
  containerName : String
  cfg : RuntimeConfig
  img : String
deriving DecidableEq, Repr

/-- The instance name `Run` uses (docker_runner.go, lines 31-34). -/
def resolveName (env : Host) (cfg : RuntimeConfig) : String :=
  if cfg.ContainerName = "" then generateName cfg.NamePrefix env.now env.draw
  else cfg.ContainerName

/-- The writable-path default (docker_runner.go, lines 85-88). -/
def defaultWritable (cfg : RuntimeConfig) : RuntimeConfig :=
  if cfg.ReadOnlyRootFS ∧ cfg.WritablePaths.length = 0 then
    { cfg with WritablePaths := ["/tmp"] }
  else cfg

/-- The first part of `Run`, up to the choice of the image (docker_runner.go,
lines 31-93). -/
def prepare (env : Host) (eng : Engine) (w : World) (cfg : RuntimeConfig) :
    World × Except RunError Prepared :=
  let containerName := resolveName env cfg
  if !dockerNameRegex.MatchString containerName then
    (w, .error (.invalidName containerName))
  else
    let r := nameExists eng w containerName
    let w := r.1
    if r.2 then (w, .error (.nameExists containerName))
    else
      match resolveCopyPaths env cfg.CopyPaths with
      | .error e => (w, .error e)
      | .ok copyPaths =>
        match resolveMounts env cfg.Mounts with
        | .error e => (w, .error e)
        | .ok mounts =>
          let cfg : RuntimeConfig := { cfg with CopyPaths := copyPaths, Mounts := mounts }
          let cfg := defaultWritable cfg
          let img := if cfg.Image = "" then defaultImage else cfg.Image
          (w, .ok ⟨containerName, cfg, img⟩)

/-- The argument list of the creation command (docker_runner.go, lines 95-100). -/
def createArgs (p : Prepared) : List String :=
  let args := BuildRunArgs p.cfg
  let args := args ++ ["--detach"]
  let args := args ++ ["--name", p.containerName]
  let args := args ++ ["--entrypoint", "tail"]
  let args := args ++ [p.img, "-f", "/dev/null"]
  args

/-- The creation step (docker_runner.go, lines 95-113): the error of
`docker run`, if any. -/
def createContainer (eng : Engine) (w : World) (p : Prepared) : World × Option String :=
  let args := createArgs p
  let w := if p.cfg.Verbose then w.log ("+ docker " ++ strJoin args " ") else w
  if p.cfg.Verbose then runCmdInherit eng w args else runCmdQuiet eng w args

/-- The command that creates one writable directory. -/
def mkdirArgs (container w : String) : List String :=
  ["exec", "-u", "0", container, "mkdir", "-p", w]

/-- Create writable paths inside container as root (docker_runner.go,
lines 124-127). -/
def createWritablePaths (eng : Engine) (container : String) : List String → World → World
  | [], w => w
  | p :: rest, w =>
    createWritablePaths eng container rest (runCmdInherit eng w (mkdirArgs container p)).1

/-- The loop over the copy-in paths (docker_runner.go, lines 136-150). -/
def copyLoop (eng : Engine) (verbose : Bool) (container homeDir : String) :
    List String → World → World × Option RunError
  | [], w => (w, none)
  | host :: rest, w =>
    let w := if verbose then
      w.log ("+ docker cp " ++ host ++ " " ++ (container ++ ":" ++ homeDir)) else w
    let r := runCmdInherit eng w ["cp", host, container ++ ":" ++ homeDir]
    match r.2 with
    | some err => (r.1, some (.dockerCpFailed host err))
    | none =>
      let base := filepathBase host
      let destPath := homeDir ++ "/" ++ base
      let w := if verbose then
        r.1.log ("+ docker exec -u 0 " ++ container ++ " chmod -R a-w " ++ destPath) else r.1
      let r := runCmdInherit eng w
        ["exec", "-u", "0", container, "sh", "-c", "chmod -R a-w " ++ shellQuote destPath]
      copyLoop eng verbose container homeDir rest r.1

/-- Copy files into the container user's home directory (docker_runner.go,
lines 129-151). -/
def copyFiles (eng : Engine) (cfg : RuntimeConfig) (container : String) (w : World) :
    World × Option RunError :=
  if cfg.CopyPaths.length > 0 then
    let r := getContainerHome eng w container
    let homeDir := if r.2.2 ≠ none ∨ r.2.1 = "" then "/home/linuxbrew" else r.2.1
    copyLoop eng cfg.Verbose container homeDir cfg.CopyPaths r.1
  else (w, none)

/-- The loop that keeps the packages not yet installed (docker_runner.go,
lines 156-161). -/
def filterMissing (eng : Engine) (container : String) :
    List String → World → List String → World × List String
  | [], w, filter => (w, filter)
  | p :: rest, w, filter =>
    let r := brewInstalled eng w container p
    filterMissing eng container rest r.1 (if !r.2 then filter ++ [p] else filter)

/-- The fixed head of a `brew install` command. -/
def brewInstallHead (container : String) : List String :=
  ["exec", container, "env",
    "HOMEBREW_NO_AUTO_UPDATE=1",
    "HOMEBREW_NO_INSTALL_CLEANUP=1",
    "HOMEBREW_NO_ENV_HINTS=1",
    "HOMEBREW_NO_ANALYTICS=1",
    "brew", "install", "-q"]

/-- Install packages via brew if requested and network allowed
(docker_runner.go, lines 153-178). -/
def installPackages (eng : Engine) (cfg : RuntimeConfig) (container : String) (w : World) :
    World :=
  if cfg.Packages.length > 0 ∧ !cfg.DisableNetwork then
    let r := filterMissing eng container cfg.Packages w []
    let w := r.1
    let filter := r.2
    if filter.length > 0 then
      let installCmd := brewInstallHead container ++ filter
      let w := if cfg.Verbose then w.log ("+ docker " ++ strJoin installCmd " ") else w
      let r := runCmdInherit eng w installCmd
      match r.2 with
      | some err => r.1.log ("warning: brew install failed: " ++ err)
      | none => r.1
    else w
  else if cfg.Packages.length > 0 ∧ cfg.DisableNetwork then
    w.log "warning: --no-net set; skipping package installs"
  else w

/-- Ensure fish is available when preferred and network is allowed
(docker_runner.go, lines 180-194). -/
def ensureFish (eng : Engine) (cfg : RuntimeConfig) (container : String) (w : World) : World :=
  if (cfg.Shell = "" ∨ cfg.Shell = "fish") ∧ !cfg.DisableNetwork then
    let r := hasShell eng w container "fish"
    if !r.2 then
      let cmd := brewInstallHead container ++ ["fish"]
      let w := if cfg.Verbose then r.1.log ("+ docker " ++ strJoin cmd " ") else r.1
      (runCmdInherit eng w cmd).1
    else r.1
  else w

/-- The interactive shell and the teardown that ends `Run` (docker_runner.go,
lines 196-213). -/
def shellAndStop (eng : Engine) (cfg : RuntimeConfig) (container : String) (w : World) :
    World × Option RunError :=
  let r := execInteractiveShell eng w container cfg.Shell cfg.Verbose
  let w := match r.2 with
    | some err => r.1.log ("warning: interactive shell failed: " ++ err)
    | none => r.1
  let w :=
    if cfg.Verbose then
      if cfg.GracefulStop then w.log ("+ docker stop --timeout 10 " ++ container)
      else w.log ("+ docker kill " ++ container)
    else w
  let r := gracefulStop eng w container cfg
  match r.2 with
  | some err => (r.1, some err)
  | none => (r.1, none)

/-- The part of `Run` that follows a successful creation (docker_runner.go,
lines 124-213), on the main sequence; the signal listener armed at lines
115-122 is not part of it. -/
def session (eng : Engine) (p : Prepared) (w : World) : World × Option RunError :=
  let w := createWritablePaths eng p.containerName p.cfg.WritablePaths w
  match copyFiles eng p.cfg p.containerName w with
  | (w, some err) => (w, some err)
  | (w, none) =>
    let w := installPackages eng p.cfg p.containerName w
    let w := ensureFish eng p.cfg p.containerName w
    shellAndStop eng p.cfg p.containerName w

/-- Run starts a container per config, prepares it, opens interactive shell, and
cleans up (docker_runner.go, lines 30-214), when no signal arrives. -/
def Run (env : Host) (eng : Engine) (cfg : RuntimeConfig) : World × Option RunError :=
  match prepare env eng ⟨[], []⟩ cfg with
  | (w, .error e) => (w, some e)
  | (w, .ok p) =>
    match createContainer eng w p with
    | (w, some runErr) => (w, some (.dockerRunFailed runErr))
    | (w, none) => session eng p w

/-! ## Vocabulary of the statements -/

/-- The teardown the specification prescribes for an instance: `stop` with the
ten-second timeout when graceful stop is requested and `kill` otherwise,
followed by `rm` when purge is requested. -/
def teardownCmds (container : String) (cfg : RuntimeConfig) : List Cmd :=
  (if cfg.GracefulStop then [(⟨.inherit, ["stop", "--timeout", "10", container]⟩ : Cmd)]
    else [⟨.inherit, ["kill", container]⟩])
    ++ (if cfg.PurgeOnExit then [⟨.inherit, ["rm", container]⟩] else [])

/-- The subcommand of an engine command: its first argument. -/
def Cmd.sub (c : Cmd) : Option String := c.args.head?

/-- A stop, kill or remove command. -/
def Cmd.isTeardown (c : Cmd) : Bool :=
  c.sub == some "stop" || c.sub == some "kill" || c.sub == some "rm"

/-- A command of the staging, provisioning and attach steps: an exec or a
copy-in. -/
def Cmd.isSetup (c : Cmd) : Bool :=
  c.sub == some "exec" || c.sub == some "cp"

/-- The second record continues the first one by exec and copy-in commands
only. -/
def World.setupExt (w w' : World) : Prop :=
  ∃ l, w'.cmds = w.cmds ++ l ∧ ∀ c ∈ l, c.isSetup = true

/-- The `--mount` arguments of the writable paths, as the specification
prescribes them. -/
def tmpfsArgs (paths : List String) : List String :=
  paths.flatMap (fun p => ["--mount", "type=tmpfs,destination=" ++ p])

/-- An engine on which every command succeeds and prints nothing, except the
copy-in command, which fails. -/
def copyFailsEngine : Engine :=
  fun _ c => if c.sub = some "cp" then ⟨some "exit status 1", ""⟩ else ⟨none, ""⟩

/-- An engine on which every command succeeds and prints nothing, except the
exec commands run with both output streams closed (the probes of hasShell and
brewInstalled), which fail. -/
def noShellEngine : Engine :=
  fun _ c =>
    if c.stdio = .silent ∧ c.sub = some "exec" then ⟨some "exit status 1", ""⟩ else ⟨none, ""⟩

/-- An engine on which every command succeeds and prints nothing. -/
def obligingEngine : Engine := fun _ _ => ⟨none, ""⟩

/-- A host whose working directory is `/work`, without symlinks, on which
exactly `/data` exists, at a fixed clock reading and random draw. -/
def sampleHost : Host :=
  { cwd := some "/work"
    evalSymlinks := fun _ => none
    stat := fun p => if p = "/data" then none else some "no such file or directory"
    now := ⟨2024, 1, 2, 3, 4, 5⟩
    draw := 42 }

/-- A configuration that names its instance and asks for nothing else. -/
def labConfig : RuntimeConfig := { ContainerName := "lab1" }

/-- A configuration that names its instance, copies `/data` in, stops
gracefully and purges. -/
def copyConfig : RuntimeConfig :=
  { ContainerName := "lab1", CopyPaths := ["/data"], PurgeOnExit := true, GracefulStop := true }

/-- The configuration of the test of BuildRunArgs (dockerargs_test.go). -/
def mountConfig : RuntimeConfig :=
  { User := "1000:1000", Mounts := ["/host/path"], Image := "homebrew/brew:latest",
    PurgeOnExit := true }

/-- A configuration that mounts the parent of the working directory into another
image. -/
def parentMountConfig : RuntimeConfig := { Mounts := [".."], Image := "alpine" }

/-- A configuration that mounts the root of the host. -/
def rootMountConfig : RuntimeConfig := { Mounts := ["/"] }

/-- A configuration that names its instance and asks for a read-only root. -/
def readOnlyConfig : RuntimeConfig := { ContainerName := "lab1", ReadOnlyRootFS := true }

/-- The teardown routine entered twice in succession for one instance: the
record after both, and the error of each invocation. -/
def teardownTwice (eng : Engine) (w : World) (container : String) (cfg : RuntimeConfig) :
    World × Option RunError × Option RunError :=
  let r1 := gracefulStop eng w container cfg
  let r2 := gracefulStop eng r1.1 container cfg
  (r2.1, r1.2, r2.2)

/-! ## Vocabulary of the statements: options, probes, host paths -/

/-- An option of an engine command line: a flag and the value that follows it,
if the flag takes one. -/
structure Opt where
  flag : String
  value : Option String
deriving DecidableEq, Repr

/-- The arguments an option stands for. -/
def Opt.args (o : Opt) : List String := o.flag :: o.value.toList

/-- The options of the argument list of BuildRunArgs, after the subcommand
`run`, read flag by flag. -/
def runOptions (cfg : RuntimeConfig) : List Opt :=
  (if cfg.PurgeOnExit then [(⟨"--rm", none⟩ : Opt)] else [])
    ++ (if cfg.DisableNetwork then [⟨"--network", some "none"⟩] else [])
    ++ (if cfg.ReadOnlyRootFS then [⟨"--read-only", none⟩] else [])
    ++ cfg.WritablePaths.map (fun w => ⟨"--mount", some ("type=tmpfs,destination=" ++ w)⟩)
    ++ (if cfg.MemoryLimit ≠ "" then [⟨"--memory", some cfg.MemoryLimit⟩] else [])
    ++ (if cfg.CPULimit ≠ "" then [⟨"--cpus", some cfg.CPULimit⟩] else [])
    ++ (if cfg.PidsLimit ≠ 0 then [⟨"--pids-limit", some (toString cfg.PidsLimit)⟩] else [])
    ++ (if cfg.ForceAMD64 then [⟨"--platform", some "linux/amd64"⟩] else [])
    ++ (if cfg.CapDropAll then [⟨"--cap-drop", some "ALL"⟩] else [])
    ++ (if cfg.NoNewPrivileges then [⟨"--security-opt", some "no-new-privileges:true"⟩]
      else [])
    ++ (if cfg.User ≠ "" then [⟨"--user", some cfg.User⟩] else [])
    ++ cfg.Mounts.map
      (fun m => ⟨"--mount", some (bindMountArg (guessHomeForImage cfg.Image) m)⟩)
    ++ (if cfg.ContainerName ≠ "" then [⟨"--name", some cfg.ContainerName⟩] else [])

/-- The options of the creation command of Run, read flag by flag: those of
BuildRunArgs, then the ones Run appends before the image. -/
def createOptions (p : Prepared) : List Opt :=
  runOptions p.cfg
    ++ [⟨"--detach", none⟩, ⟨"--name", some p.containerName⟩, ⟨"--entrypoint", some "tail"⟩]

/-- The `--name` options among a list of options. -/
def nameOptions (opts : List Opt) : List Opt := opts.filter (fun o => o.flag == "--name")

/-- The probes of a list of shell names, in order. -/
def probeCmds (container : String) (names : List String) : List Cmd :=
  names.map (hasShellCmd container)

/-- The interactive attach to a shell of the instance. -/
def attachCmd (container shell : String) : Cmd :=
  ⟨.inherit, ["exec", "-it", container, shell]⟩

/-- Every probe of the names fails, each probe being issued after the commands
`hist` and the probes of the names before it. -/
def allProbesFail (eng : Engine) (container : String) (hist : List Cmd)
    (names : List String) : Prop :=
  ∀ b1 x b2, names = b1 ++ x :: b2 →
    (eng (hist ++ probeCmds container b1) (hasShellCmd container x)).err ≠ none

/-- The normal form Run gives a host path before it checks it: made absolute
when it is relative, symlinks resolved when that succeeds (docker_runner.go,
lines 44-51 and 67-73). -/
def normalizeHostPath (env : Host) (p : String) : String :=
  let p := if !filepathIsAbs p then filepathAbs env p else p
  match env.evalSymlinks p with
  | some resolved => resolved
  | none => p

/-- The host part of a mount string `host[:container]`. -/
def mountHost (m : String) : String :=
  if strContains m ":" then (splitColon2 m).1 else m

/-- The container part of a mount string `host[:container]`, empty when none
is given. -/
def mountContainer (m : String) : String :=
  if strContains m ":" then (splitColon2 m).2 else ""

/-- The instance names the engine knows: the trimmed lines of the output of the
existence query. -/
def knownInstances (out : String) : List String :=
  (splitOnChar '\n' out.data).map (fun line => trimSpace (String.mk line))

/-- An engine on which every command succeeds and prints nothing, except the
creation command, which fails. -/
def createFailsEngine : Engine :=
  fun _ c => if c.sub = some "run" then ⟨some "exit status 125", ""⟩ else ⟨none, ""⟩

/-- A configuration that names its instance and copies in a path that does not
exist on the sample host. -/
def missingCopyConfig : RuntimeConfig := { ContainerName := "lab1", CopyPaths := ["/nope"] }

/-- The arguments of a `brew install` command after `exec` and the instance
name. -/
def brewInstallTail : List String :=
  ["env",
    "HOMEBREW_NO_AUTO_UPDATE=1",
    "HOMEBREW_NO_INSTALL_CLEANUP=1",
    "HOMEBREW_NO_ENV_HINTS=1",
    "HOMEBREW_NO_ANALYTICS=1",
    "brew", "install", "-q"]

/-- An install command: an exec, in some instance, of `brew install -q` under
the environment of brewInstallHead. -/
def Cmd.isInstall (c : Cmd) : Bool :=
  c.sub == some "exec" && (c.args.drop 2).take 8 == brewInstallTail

/-- The install command of a list of packages. -/
def installCmd (container : String) (pkgs : List String) : Cmd :=
  ⟨.inherit, brewInstallHead container ++ pkgs⟩

/-- The requested packages whose installed-probe answers `not installed`, in
the requested order, each probe being issued after the commands `hist` and the
probes of the packages before it. -/
def notInstalled (eng : Engine) (container : String) : List Cmd → List String → List String
  | _, [] => []
  | hist, p :: ps =>
    (if (eng hist (brewInstalledCmd container p)).err = none then [] else [p])
      ++ notInstalled eng container (hist ++ [brewInstalledCmd container p]) ps

/-- The second record continues the first one by commands that are not install
commands. -/
def World.quietExt (w w' : World) : Prop :=
  ∃ l, w'.cmds = w.cmds ++ l ∧ ∀ c ∈ l, c.isInstall = false

/-- A configuration that names its instance and requests two packages. -/
def packagesConfig : RuntimeConfig :=
  { ContainerName := "lab1", Packages := ["jq", "yara"] }

/-- A configuration that names its instance and requests the package fish. -/
def fishPackageConfig : RuntimeConfig :=
  { ContainerName := "lab1", Packages := ["fish"] }

/-! ## Package `profiles`

The profile store is a directory of files.  The files are modelled as a list of
paths with their content; directories are implicit, and creating the directory,
writing and renaming succeed.  The YAML and JSON libraries are parameters. -/

/-- Profile mirrors the schema described in rules (profiles.go, lines 21-38). -/
structure Profile where
  Name : String := ""
  Image : String := ""
  Packages : List String := []
  Copy : List String := []
  Mounts : List String := []
  ContainerName : String := ""
  Prefix : String := ""
  Purge : Bool := false
  NoNet : Bool := false
  Memory : String := ""
  CPUs : String := ""
  PidsLimit : Int := 0
  ReadOnly : Bool := false
  Writable : List String := []
  AMD64 : Bool := false
  Graceful : Bool := false
deriving DecidableEq, Repr, Inhabited

/-- The serialisation libraries: `yaml.Marshal`, `yaml.Unmarshal` into a zero
profile, `json.MarshalIndent` and `json.Unmarshal` into a zero profile. -/
structure Codec where
  yamlMarshal : Profile → Except String String
  yamlUnmarshal : String → Except String Profile
  jsonMarshal : Profile → Except String String
  jsonUnmarshal : String → Except String Profile

/-- The regular files of the host: path and content. -/
abbrev Files := List (String × String)

/-- The call `os.ReadFile`: the content, or `none` when there is no such file. -/
def readFile (fs : Files) (path : String) : Option String :=
  (fs.find? (fun f => f.1 == path)).map (fun f => f.2)

/-- The call `os.WriteFile`: the file is created or replaced. -/
def writeFile (fs : Files) (path data : String) : Files :=
  fs.filter (fun f => f.1 != path) ++ [(path, data)]

/-- The call `os.Rename` of an existing file: it replaces the target. -/
def renameFile (fs : Files) (old new : String) : Files :=
  match readFile fs old with
  | none => fs
  | some data => (fs.filter (fun f => f.1 != old && f.1 != new)) ++ [(new, data)]

/-- The name of a file as an entry of a directory: the path without the
directory and the separator, when nothing but a name remains. -/
def entryName (dir path : String) : Option String :=
  let pre := dir.data ++ ['/']
  if pre.isPrefixOf path.data then
    let name := path.data.drop pre.length
    if name ≠ [] ∧ '/' ∉ name then some (String.mk name) else none
  else none

/-- The order of Go strings (byte-wise, which on Unicode text is the order of
the code points): `a ≤ b`. -/
def charsLe : List Char → List Char → Bool
  | [], _ => true
  | _ :: _, [] => false
  | a :: as, b :: bs =>
    if a.toNat < b.toNat then true
    else if b.toNat < a.toNat then false
    else charsLe as bs

/-- Insertion of a name into a list of names sorted by `charsLe`. -/
def insertName (name : String) : List String → List String
  | [] => [name]
  | x :: xs =>
    if charsLe name.data x.data then name :: x :: xs else x :: insertName name xs

/-- The call `os.ReadDir`: the names of the files of the directory, sorted by
file name. -/
def readDir (fs : Files) (dir : String) : List String :=
  (fs.filterMap (fun f => entryName dir f.1)).foldr insertName []

/-- The function `strings.HasSuffix`. -/
def hasSuffix (s suffix : String) : Bool := suffix.data.isSuffixOf s.data

/-- The function `strings.TrimSuffix`. -/
def trimSuffix (s suffix : String) : String :=
  if hasSuffix s suffix then String.mk (s.data.take (s.data.length - suffix.data.length))
  else s

/-- The directory name of the store under the home directory. -/
def profilesDirName : String := ".lazylab/profiles"

/-- The function ProfilesDir (profiles.go, lines 40-46); `home` is what
`os.UserHomeDir` yields, `none` standing for its error. -/
def ProfilesDir (home : Option String) : Except String String :=
  match home with
  | none => .error "$HOME is not defined"
  | some home => .ok (filepathJoin [home, profilesDirName])

/-- The function EnsureDir (profiles.go, lines 48-57). -/
def EnsureDir (home : Option String) : Except String String :=
  match ProfilesDir home with
  | .error err => .error err
  | .ok dir => .ok dir

/-- The function sanitizeName (profiles.go, lines 59-67). -/
def sanitizeName (name : String) : Option String :=
  if name = "" then some "empty profile name"
  else if strContains name "/" ∨ strContains name ".." then some "invalid profile name"
  else none

/-- The function pathFor (profiles.go, lines 69-78). -/
def pathFor (home : Option String) (name : String) : Except String String :=
  match sanitizeName name with
  | some err => .error err
  | none =>
    match ProfilesDir home with
    | .error err => .error err
    | .ok dir => .ok (filepathJoin [dir, name ++ ".yaml"])

/-- The function Save (profiles.go, lines 80-112): the files afterwards and the
error. -/
def Save (codec : Codec) (home : Option String) (fs : Files) (name : String) (p : Profile) :
    Files × Option String :=
  match sanitizeName name with
  | some err => (fs, some err)
  | none =>
    match EnsureDir home with
    | .error err => (fs, some err)
    | .ok dir =>
      let path :=
        if hasSuffix name ".json" ∨ hasSuffix name ".yaml" ∨ hasSuffix name ".yml" then
          filepathJoin [dir, name]
        else filepathJoin [dir, name ++ ".yaml"]
      match (if hasSuffix path ".json" then codec.jsonMarshal p else codec.yamlMarshal p) with
      | .error err => (fs, some err)
      | .ok b =>
        let tmp := path ++ ".tmp"
        let fs := writeFile fs tmp b
        let fs := renameFile fs tmp path
        (fs, none)

/-- The loop of Load over the candidate paths (profiles.go, lines 125-132): the
data and the path of the first candidate that can be read, or the values
before the loop. -/
def firstReadable (fs : Files) : List String → String × String → String × String
  | [], before => before
  | cand :: rest, before =>
    match readFile fs cand with
    | some b => (b, cand)
    | none => firstReadable fs rest before

/-- The function Load (profiles.go, lines 114-146): the profile and the error.
On an error the profile returned is the zero profile. -/
def Load (codec : Codec) (home : Option String) (fs : Files) (name : String) :
    Profile × Option String :=
  match pathFor home name with
  | .error err => (default, some err)
  | .ok path =>
    let candidates := [path]
    let candidates :=
      if !hasSuffix path ".json" then [trimSuffix path ".yaml" ++ ".json"] ++ candidates
      else candidates
    let r := firstReadable fs candidates ("", path)
    let data := r.1
    let path := r.2
    if data.length = 0 then (default, some ("profile not found: " ++ name))
    else if hasSuffix path ".json" then
      match codec.jsonUnmarshal data with
      | .error err => (default, some err)
      | .ok p => (p, none)
    else
      match codec.yamlUnmarshal data with
      | .error err => (default, some err)
      | .ok p => (p, none)

/-- The function List of profiles.go (lines 158-181): the names and the
error.  The store holds regular files only, so no entry is skipped as a
directory. -/
def listProfiles (home : Option String) (fs : Files) : List String × Option String :=
  match ProfilesDir home with
  | .error err => ([], some err)
  | .ok dir =>
    let entries := readDir fs dir
    (entries.filterMap (fun name =>
      if hasSuffix name ".yaml" ∨ hasSuffix name ".json" then
        some (trimSuffix (trimSuffix name ".yaml") ".json")
      else none), none)

/-- A toy serialisation that keeps the name of a profile and nothing else. -/
def nameCodec : Codec :=
  { yamlMarshal := fun p => .ok ("name: " ++ p.Name)
    yamlUnmarshal := fun d => .ok { Name := String.mk (d.data.drop 6) }
    jsonMarshal := fun p => .ok ("name= " ++ p.Name)
    jsonUnmarshal := fun d => .ok { Name := String.mk (d.data.drop 6) } }

end LazyLab

namespace LazyLab

theorem iterPlus_nil (f : Pos → List Pos) (n : Nat) : iterPlus f n [] = [] := by
  induction n with
  | zero => rfl
  | succ n ih => simp [iterPlus, ih]

theorem iterPlus_succ_single (f : Pos → List Pos) (n : Nat) (p : Pos) :
    iterPlus f (n + 1) [p] = f p ++ iterPlus f n (f p) := by
  simp [iterPlus]

theorem ends_cls_nil (rs : List (Char × Char)) (st : Bool) :
    (Regex.cls rs).ends ⟨st, []⟩ = [] := rfl

theorem ends_cls_cons (rs : List (Char × Char)) (st : Bool) (c : Char) (cs : List Char) :
    (Regex.cls rs).ends ⟨st, c :: cs⟩ = if inClass rs c then [⟨false, cs⟩] else [] := rfl

theorem ends_eol (p : Pos) : Regex.eol.ends p = if p.rest.isEmpty then [p] else [] := rfl

theorem ends_bol (p : Pos) : Regex.bol.ends p = if p.atStart then [p] else [] := rfl

theorem ends_seq (a b : Regex) (p : Pos) : (a.seq b).ends p = (a.ends p).flatMap b.ends := rfl

theorem ends_plus (a : Regex) (p : Pos) :
    a.plus.ends p = iterPlus a.ends (p.rest.length + 1) [p] := rfl

theorem inClass_alnum (c : Char) : inClass alnumRanges c = isAsciiAlnum c := by
  simp [inClass, alnumRanges, isAsciiAlnum, Bool.or_assoc]

theorem inClass_body (c : Char) :
    inClass (alnumRanges ++ [('_', '_'), ('.', '.'), ('-', '-')]) c = isNameBody c := by
  have h : ∀ d : Char, (decide (d ≤ c) && decide (c ≤ d)) = (c == d) := by
    intro d
    rw [Bool.eq_iff_iff]
    simp only [Bool.and_eq_true, decide_eq_true_eq, beq_iff_eq]
    constructor
    · rintro ⟨h1, h2⟩
      exact le_antisymm h2 h1
    · rintro rfl
      exact ⟨le_refl _, le_refl _⟩
  simp only [inClass, List.any_append, alnumRanges, isNameBody, isAsciiAlnum, List.any_cons,
    List.any_nil, Bool.or_false, h, Bool.or_assoc]

/-- The body-and-end part of the name pattern: from a position with unread
input `cs` a match of `[..]+$` exists exactly when `cs` is a non-empty run of
class characters. -/
theorem plus_cls_eol (rs : List (Char × Char)) (cs : List Char) :
    ∀ (st : Bool) (n : Nat), cs.length + 1 ≤ n →
      ((iterPlus (Regex.cls rs).ends n [⟨st, cs⟩]).flatMap Regex.eol.ends ≠ [] ↔
        cs ≠ [] ∧ ∀ c ∈ cs, inClass rs c = true) := by
  induction cs with
  | nil =>
    intro st n hn
    obtain ⟨m, rfl⟩ : ∃ m, n = m + 1 := ⟨n - 1, by omega⟩
    simp [iterPlus_succ_single, ends_cls_nil, iterPlus_nil]
  | cons c t ih =>
    intro st n hn
    obtain ⟨m, rfl⟩ : ∃ m, n = m + 1 := ⟨n - 1, by omega⟩
    have hm : t.length + 1 ≤ m := by simp at hn; omega
    rw [iterPlus_succ_single, ends_cls_cons]
    by_cases hc : inClass rs c = true
    · have := ih false m hm
      simp only [hc, if_true, List.singleton_append, List.flatMap_cons, ne_eq,
        List.append_eq_nil, not_and, ends_eol] at this ⊢
      generalize (iterPlus (Regex.cls rs).ends m [⟨false, t⟩]).flatMap Regex.eol.ends = L
        at this ⊢
      by_cases ht : t = []
      · subst ht; simp [hc]
      · simp only [ht, not_false_eq_true, true_and] at this
        simp [ht, this, hc]
    · simp [hc, iterPlus_nil]

theorem search_bol_false (r : Regex) (cs : List Char) :
    (Regex.seq .bol r).search false cs = false := by
  induction cs with
  | nil => simp [Regex.search, ends_seq, ends_bol]
  | cons c t ih => simp [Regex.search, ends_seq, ends_bol, ih]

theorem matchString_dockerName (s : String) :
    dockerNameRegex.MatchString s = true ↔
      ∃ c cs, s.data = c :: cs ∧ isAsciiAlnum c = true ∧ cs ≠ [] ∧
        ∀ d ∈ cs, isNameBody d = true := by
  unfold Regex.MatchString dockerNameRegex
  cases hs : s.data with
  | nil => simp [Regex.search, ends_seq, ends_bol, ends_cls_nil]
  | cons c cs =>
    have key := plus_cls_eol (alnumRanges ++ [('_', '_'), ('.', '.'), ('-', '-')]) cs false
      (cs.length + 1) (le_refl _)
    simp only [inClass_body] at key
    simp only [Regex.search, search_bol_false, Bool.or_false, ends_seq, ends_bol, if_true,
      List.flatMap_cons, List.flatMap_nil, List.append_nil, ends_cls_cons, inClass_alnum]
    by_cases hc : isAsciiAlnum c = true
    · simp only [hc, if_true, List.flatMap_cons, List.flatMap_nil, List.append_nil, ends_seq,
        ends_plus]
      generalize (iterPlus (Regex.cls (alnumRanges ++ [('_', '_'), ('.', '.'), ('-', '-')])).ends
        (cs.length + 1) [⟨false, cs⟩]).flatMap Regex.eol.ends = L at key ⊢
      constructor
      · intro h
        have hL : L ≠ [] := by
          intro e
          simp [e] at h
        exact ⟨c, cs, rfl, hc, key.mp hL⟩
      · rintro ⟨c', cs', heq, -, h1, h2⟩
        cases heq
        have hL := key.mpr ⟨h1, h2⟩
        cases L with
        | nil => exact absurd rfl hL
        | cons x xs => rfl
    · simp [hc]


theorem validate_none_iff (s : String) :
    ValidateContainerName s = none ↔
      ∃ c cs, s.data = c :: cs ∧ isAsciiAlnum c = true ∧ cs ≠ [] ∧
        ∀ d ∈ cs, isNameBody d = true := by
  rw [← matchString_dockerName]
  unfold ValidateContainerName
  cases dockerNameRegex.MatchString s <;> simp

theorem validate_none_all_body (s : String) (h : ValidateContainerName s = none) :
    ∀ d ∈ s.data, isNameBody d = true := by
  obtain ⟨c, cs, hs, hc, -, hb⟩ := (validate_none_iff s).mp h
  intro d hd
  rw [hs] at hd
  rcases List.mem_cons.mp hd with rfl | hd
  · simp [isNameBody, hc]
  · exact hb d hd

/-- C1. ValidateContainerName returns no error exactly for the strings of
length at least two whose first character is an ASCII letter or digit and
whose later characters are ASCII letters, digits, `_`, `.` or `-`; every other
string gets the invalid-name error, in particular the empty string, a string
with a leading `-` or `.`, and a string containing `/` or white space. -/
theorem validateContainerName_iff_grammar (s : String) :
    (ValidateContainerName s = none ↔
      2 ≤ s.length ∧ (∃ c, s.data.head? = some c ∧ isAsciiAlnum c = true) ∧
        ∀ d ∈ s.data.tail, isNameBody d = true) ∧
    (ValidateContainerName s ≠ none ↔ ValidateContainerName s = some (.invalidName s)) ∧
    ValidateContainerName "" = some (.invalidName "") ∧
    (∀ t : String, ValidateContainerName ("-" ++ t) = some (.invalidName ("-" ++ t))) ∧
    (∀ t : String, ValidateContainerName ("." ++ t) = some (.invalidName ("." ++ t))) ∧
    (∀ (a b : String) (c : Char), (c = '/' ∨ c.isWhitespace = true) →
      ValidateContainerName (a ++ String.singleton c ++ b) =
        some (.invalidName (a ++ String.singleton c ++ b))) := by
  have hrej : ∀ t : String, ValidateContainerName t ≠ none ↔
      ValidateContainerName t = some (.invalidName t) := by
    intro t
    unfold ValidateContainerName
    cases dockerNameRegex.MatchString t <;> simp
  refine ⟨?_, hrej s, by decide, ?_, ?_, ?_⟩
  · rw [validate_none_iff]
    constructor
    · rintro ⟨c, cs, hs, hc, hne, hb⟩
      refine ⟨?_, ⟨c, by simp [hs], hc⟩, by simpa [hs] using hb⟩
      have : s.length = (c :: cs).length := by rw [← hs]; rfl
      cases cs with
      | nil => exact absurd rfl hne
      | cons d t => simp at this; omega
    · rintro ⟨hlen, ⟨c, hhead, hc⟩, hb⟩
      have hl : s.length = s.data.length := rfl
      cases hs : s.data with
      | nil => simp [hs] at hhead
      | cons c' cs =>
        rw [hs] at hhead hb
        simp at hhead
        subst hhead
        refine ⟨c', cs, rfl, hc, ?_, by simpa using hb⟩
        rintro rfl
        rw [hl, hs] at hlen
        simp at hlen
  · intro t
    rw [← hrej]
    intro h
    obtain ⟨c, cs, hs, hc, -, -⟩ := (validate_none_iff _).mp h
    simp at hs
    rw [← hs.1] at hc
    exact absurd hc (by decide)
  · intro t
    rw [← hrej]
    intro h
    obtain ⟨c, cs, hs, hc, -, -⟩ := (validate_none_iff _).mp h
    simp at hs
    rw [← hs.1] at hc
    exact absurd hc (by decide)
  · intro a b c hc
    rw [← hrej]
    intro h
    have hb := validate_none_all_body _ h c (by simp [String.singleton])
    rcases hc with rfl | hw
    · exact absurd hb (by decide)
    · simp only [Char.isWhitespace, Bool.or_eq_true, beq_iff_eq, decide_eq_true_eq] at hw
      rcases hw with ((rfl | rfl) | rfl) | rfl <;> exact absurd hb (by decide)

/-! ### generateName -/

theorem digitChar_isAlnum (d : Nat) (h : d < 10) : isAsciiAlnum (Nat.digitChar d) = true := by
  have : ∀ d, d < 10 → isAsciiAlnum (Nat.digitChar d) = true := by decide
  exact this d h

theorem toDigitsCore_alnum (fuel : Nat) : ∀ (n : Nat) (ds : List Char),
    (∀ c ∈ ds, isAsciiAlnum c = true) →
      ∀ c ∈ Nat.toDigitsCore 10 fuel n ds, isAsciiAlnum c = true := by
  induction fuel with
  | zero => intro n ds h; simpa [Nat.toDigitsCore] using h
  | succ f ih =>
    intro n ds h
    have hd : ∀ c ∈ Nat.digitChar (n % 10) :: ds, isAsciiAlnum c = true := by
      intro c hc
      rcases List.mem_cons.mp hc with rfl | hc
      · exact digitChar_isAlnum _ (Nat.mod_lt _ (by decide))
      · exact h c hc
    simp only [Nat.toDigitsCore]
    split
    · exact hd
    · exact ih _ _ hd

theorem zeroPad_alnum (width n : Nat) : ∀ c ∈ (zeroPad width n).data, isAsciiAlnum c = true := by
  intro c hc
  simp only [zeroPad, List.mem_append, List.mem_replicate] at hc
  rcases hc with ⟨-, rfl⟩ | hc
  · decide
  · exact toDigitsCore_alnum _ _ [] (by simp) c hc

theorem formatStamp_alnum (t : Clock) : ∀ c ∈ (formatStamp t).data, isAsciiAlnum c = true := by
  intro c hc
  simp only [formatStamp, String.data_append, List.mem_append] at hc
  rcases hc with ((((hc | hc) | hc) | hc) | hc) | hc <;> exact zeroPad_alnum _ _ c hc

theorem isNameBody_of_alnum (c : Char) (h : isAsciiAlnum c = true) : isNameBody c = true := by
  simp [isNameBody, h]

/-- The characters generateName appends to the prefix are all legal in the
body of a name. -/
theorem generateName_suffix_body (now : Clock) (rnd : Nat) :
    ∀ c ∈ '-' :: ((formatStamp now).data ++ '-' :: (zeroPad 5 rnd).data), isNameBody c = true := by
  intro c hc
  simp only [List.mem_cons, List.mem_append] at hc
  rcases hc with rfl | hc | rfl | hc
  · decide
  · exact isNameBody_of_alnum c (formatStamp_alnum now c hc)
  · decide
  · exact isNameBody_of_alnum c (zeroPad_alnum 5 rnd c hc)

theorem generateName_data (pfx : String) (now : Clock) (rnd : Nat) :
    (generateName pfx now rnd).data =
      (if pfx = "" then "lazylab" else pfx).data ++
        '-' :: ((formatStamp now).data ++ '-' :: (zeroPad 5 rnd).data) := by
  simp [generateName, String.data_append]

/-- A name that starts with an accepted head and continues with body
characters, the continuation being non-empty, is accepted. -/
theorem validate_append_iff (p : String) (suffix : List Char) (hs : suffix ≠ [])
    (hb : ∀ c ∈ suffix, isNameBody c = true) (s : String) (hdata : s.data = p.data ++ suffix)
    (hp : p ≠ "") :
    ValidateContainerName s = none ↔
      ∃ c cs, p.data = c :: cs ∧ isAsciiAlnum c = true ∧ ∀ d ∈ cs, isNameBody d = true := by
  rw [validate_none_iff, hdata]
  have hpd : p.data ≠ [] := by
    intro h
    apply hp
    cases p
    simp_all
  cases hpc : p.data with
  | nil => exact absurd hpc hpd
  | cons c cs =>
    constructor
    · rintro ⟨c', cs', heq, hc, -, hall⟩
      simp only [List.cons_append, List.cons.injEq] at heq
      obtain ⟨rfl, rfl⟩ := heq
      exact ⟨c, cs, rfl, hc, fun d hd => hall d (List.mem_append_left _ hd)⟩
    · rintro ⟨c', cs', heq, hc, hall⟩
      simp only [List.cons.injEq] at heq
      obtain ⟨rfl, rfl⟩ := heq
      refine ⟨c, cs ++ suffix, rfl, hc, by simp [hs], ?_⟩
      intro d hd
      rcases List.mem_append.mp hd with hd | hd
      · exact hall d hd
      · exact hb d hd

/-- C2 (as amended). For every clock value and every random draw, in
particular every draw below 100000, generateName returns a name ValidateContainerName accepts exactly when the
prefix is empty (it is then replaced by "lazylab") or itself starts with an
ASCII letter or digit and continues with ASCII letters, digits, `_`, `.` or
`-` only. -/
theorem generateName_valid_iff (pfx : String) (now : Clock) (rnd : Nat) :
    ValidateContainerName (generateName pfx now rnd) = none ↔
      (pfx = "" ∨ ∃ c cs, pfx.data = c :: cs ∧ isAsciiAlnum c = true ∧
        ∀ d ∈ cs, isNameBody d = true) := by
  have key := fun (p : String) (hp : p ≠ "") (hd : (generateName pfx now rnd).data =
      p.data ++ '-' :: ((formatStamp now).data ++ '-' :: (zeroPad 5 rnd).data)) =>
    validate_append_iff p _ (List.cons_ne_nil _ _) (generateName_suffix_body now rnd)
      (generateName pfx now rnd) hd hp
  by_cases hpfx : pfx = ""
  · have h := key "lazylab" (by decide) (by rw [generateName_data, if_pos hpfx])
    rw [h]
    simp only [hpfx, true_or, iff_true]
    exact ⟨'l', "azylab".data, rfl, by decide, by decide⟩
  · have h := key pfx hpfx (by rw [generateName_data, if_neg hpfx])
    rw [h]
    simp [hpfx]

/-- Counterexample to C2 as stated: with the prefix "-x" the generated name
starts with `-` and is rejected. -/
theorem generateName_invalid_prefix :
    (42 < 100000) ∧
      generateName "-x" ⟨2024, 1, 2, 3, 4, 5⟩ 42 = "-x-20240102030405-00042" ∧
      ValidateContainerName (generateName "-x" ⟨2024, 1, 2, 3, 4, 5⟩ 42) =
        some (.invalidName "-x-20240102030405-00042") := by
  decide

/-! ### MergeProfile, field by field -/

theorem mergeProfile_Packages (b o : RuntimeConfig) :
    (MergeProfile b o).Packages = if o.Packages = [] then b.Packages else o.Packages := by
  simp only [MergeProfile, apply_ite RuntimeConfig.Packages, ite_self]
  cases o.Packages <;> simp

theorem mergeProfile_CopyPaths (b o : RuntimeConfig) :
    (MergeProfile b o).CopyPaths = if o.CopyPaths = [] then b.CopyPaths else o.CopyPaths := by
  simp only [MergeProfile, apply_ite RuntimeConfig.CopyPaths, ite_self]
  cases o.CopyPaths <;> simp

theorem mergeProfile_Mounts (b o : RuntimeConfig) :
    (MergeProfile b o).Mounts = if o.Mounts = [] then b.Mounts else o.Mounts := by
  simp only [MergeProfile, apply_ite RuntimeConfig.Mounts, ite_self]
  cases o.Mounts <;> simp

theorem mergeProfile_WritablePaths (b o : RuntimeConfig) :
    (MergeProfile b o).WritablePaths = if o.WritablePaths = [] then b.WritablePaths else o.WritablePaths := by
  simp only [MergeProfile, apply_ite RuntimeConfig.WritablePaths, ite_self]
  cases o.WritablePaths <;> simp

theorem mergeProfile_ContainerName (b o : RuntimeConfig) :
    (MergeProfile b o).ContainerName = if o.ContainerName = "" then b.ContainerName else o.ContainerName := by
  simp only [MergeProfile, apply_ite RuntimeConfig.ContainerName, ite_self]
  by_cases h : o.ContainerName = "" <;> simp [h]

theorem mergeProfile_NamePrefix (b o : RuntimeConfig) :
    (MergeProfile b o).NamePrefix = if o.NamePrefix = "" then b.NamePrefix else o.NamePrefix := by
  simp only [MergeProfile, apply_ite RuntimeConfig.NamePrefix, ite_self]
  by_cases h : o.NamePrefix = "" <;> simp [h]

theorem mergeProfile_MemoryLimit (b o : RuntimeConfig) :
    (MergeProfile b o).MemoryLimit = if o.MemoryLimit = "" then b.MemoryLimit else o.MemoryLimit := by
  simp only [MergeProfile, apply_ite RuntimeConfig.MemoryLimit, ite_self]
  by_cases h : o.MemoryLimit = "" <;> simp [h]

theorem mergeProfile_CPULimit (b o : RuntimeConfig) :
    (MergeProfile b o).CPULimit = if o.CPULimit = "" then b.CPULimit else o.CPULimit := by
  simp only [MergeProfile, apply_ite RuntimeConfig.CPULimit, ite_self]
  by_cases h : o.CPULimit = "" <;> simp [h]

theorem mergeProfile_Image (b o : RuntimeConfig) :
    (MergeProfile b o).Image = if o.Image = "" then b.Image else o.Image := by
  simp only [MergeProfile, apply_ite RuntimeConfig.Image, ite_self]
  by_cases h : o.Image = "" <;> simp [h]

theorem mergeProfile_Shell (b o : RuntimeConfig) :
    (MergeProfile b o).Shell = if o.Shell = "" then b.Shell else o.Shell := by
  simp only [MergeProfile, apply_ite RuntimeConfig.Shell, ite_self]
  by_cases h : o.Shell = "" <;> simp [h]

theorem mergeProfile_User (b o : RuntimeConfig) :
    (MergeProfile b o).User = if o.User = "" then b.User else o.User := by
  simp only [MergeProfile, apply_ite RuntimeConfig.User, ite_self]
  by_cases h : o.User = "" <;> simp [h]

theorem mergeProfile_PidsLimit (b o : RuntimeConfig) :
    (MergeProfile b o).PidsLimit = if o.PidsLimit = 0 then b.PidsLimit else o.PidsLimit := by
  simp only [MergeProfile, apply_ite RuntimeConfig.PidsLimit, ite_self]
  by_cases h : o.PidsLimit = 0 <;> simp [h]

theorem mergeProfile_PurgeOnExit (b o : RuntimeConfig) :
    (MergeProfile b o).PurgeOnExit = (o.PurgeOnExit || b.PurgeOnExit) := by
  simp only [MergeProfile, apply_ite RuntimeConfig.PurgeOnExit, ite_self]
  cases o.PurgeOnExit <;> simp

theorem mergeProfile_DisableNetwork (b o : RuntimeConfig) :
    (MergeProfile b o).DisableNetwork = (o.DisableNetwork || b.DisableNetwork) := by
  simp only [MergeProfile, apply_ite RuntimeConfig.DisableNetwork, ite_self]
  cases o.DisableNetwork <;> simp

theorem mergeProfile_ReadOnlyRootFS (b o : RuntimeConfig) :
    (MergeProfile b o).ReadOnlyRootFS = (o.ReadOnlyRootFS || b.ReadOnlyRootFS) := by
  simp only [MergeProfile, apply_ite RuntimeConfig.ReadOnlyRootFS, ite_self]
  cases o.ReadOnlyRootFS <;> simp

theorem mergeProfile_ForceAMD64 (b o : RuntimeConfig) :
    (MergeProfile b o).ForceAMD64 = (o.ForceAMD64 || b.ForceAMD64) := by
  simp only [MergeProfile, apply_ite RuntimeConfig.ForceAMD64, ite_self]
  cases o.ForceAMD64 <;> simp

theorem mergeProfile_CapDropAll (b o : RuntimeConfig) :
    (MergeProfile b o).CapDropAll = (o.CapDropAll || b.CapDropAll) := by
  simp only [MergeProfile, apply_ite RuntimeConfig.CapDropAll, ite_self]
  cases o.CapDropAll <;> simp

theorem mergeProfile_NoNewPrivileges (b o : RuntimeConfig) :
    (MergeProfile b o).NoNewPrivileges = (o.NoNewPrivileges || b.NoNewPrivileges) := by
  simp only [MergeProfile, apply_ite RuntimeConfig.NoNewPrivileges, ite_self]
  cases o.NoNewPrivileges <;> simp

theorem mergeProfile_Verbose (b o : RuntimeConfig) :
    (MergeProfile b o).Verbose = (o.Verbose || b.Verbose) := by
  simp only [MergeProfile, apply_ite RuntimeConfig.Verbose, ite_self]
  cases o.Verbose <;> simp

theorem mergeProfile_CachePackages (b o : RuntimeConfig) :
    (MergeProfile b o).CachePackages = (o.CachePackages || b.CachePackages) := by
  simp only [MergeProfile, apply_ite RuntimeConfig.CachePackages, ite_self]

theorem mergeProfile_PurgeCache (b o : RuntimeConfig) :
    (MergeProfile b o).PurgeCache = (o.PurgeCache || b.PurgeCache) := by
  simp only [MergeProfile, apply_ite RuntimeConfig.PurgeCache, ite_self]

theorem mergeProfile_GracefulStop (b o : RuntimeConfig) :
    (MergeProfile b o).GracefulStop = b.GracefulStop := by
  simp only [MergeProfile, apply_ite RuntimeConfig.GracefulStop, ite_self]

theorem mergeProfile_ProfileName (b o : RuntimeConfig) :
    (MergeProfile b o).ProfileName = b.ProfileName := by
  simp only [MergeProfile, apply_ite RuntimeConfig.ProfileName, ite_self]

/-- C3. MergeProfile sets PurgeOnExit, DisableNetwork, ReadOnlyRootFS,
ForceAMD64, CapDropAll, NoNewPrivileges and Verbose whenever the override has
them set, but it never assigns GracefulStop: the merged value is the one of the
base, so an override with GracefulStop set over a base without it yields a
merged configuration without it. -/
theorem mergeProfile_gracefulStop_not_overridden :
    (MergeProfile { GracefulStop := false } { GracefulStop := true }).GracefulStop = false ∧
    (∀ b o : RuntimeConfig, (MergeProfile b o).GracefulStop = b.GracefulStop) ∧
    (∀ b o : RuntimeConfig,
      (MergeProfile b o).PurgeOnExit = (o.PurgeOnExit || b.PurgeOnExit) ∧
      (MergeProfile b o).DisableNetwork = (o.DisableNetwork || b.DisableNetwork) ∧
      (MergeProfile b o).ReadOnlyRootFS = (o.ReadOnlyRootFS || b.ReadOnlyRootFS) ∧
      (MergeProfile b o).ForceAMD64 = (o.ForceAMD64 || b.ForceAMD64) ∧
      (MergeProfile b o).CapDropAll = (o.CapDropAll || b.CapDropAll) ∧
      (MergeProfile b o).NoNewPrivileges = (o.NoNewPrivileges || b.NoNewPrivileges) ∧
      (MergeProfile b o).Verbose = (o.Verbose || b.Verbose)) := by
  refine ⟨by decide, mergeProfile_GracefulStop, fun b o => ⟨mergeProfile_PurgeOnExit b o, mergeProfile_DisableNetwork b o, mergeProfile_ReadOnlyRootFS b o, mergeProfile_ForceAMD64 b o, mergeProfile_CapDropAll b o, mergeProfile_NoNewPrivileges b o, mergeProfile_Verbose b o⟩⟩

/-- C4. MergeProfile is the field-wise override rule: Packages, CopyPaths,
Mounts, WritablePaths, ContainerName, NamePrefix, MemoryLimit, CPULimit, Image,
Shell, User and PidsLimit take the value of the override when it is non-empty
(non-zero) and the value of the base otherwise; a false override flag leaves
the flag of the base as it is, and ProfileName stays that of the base;
CachePackages and PurgeCache are the disjunction of the two values. -/
theorem mergeProfile_fieldwise (b o : RuntimeConfig) :
    (MergeProfile b o).Packages = (if o.Packages = [] then b.Packages else o.Packages) ∧
    (MergeProfile b o).CopyPaths = (if o.CopyPaths = [] then b.CopyPaths else o.CopyPaths) ∧
    (MergeProfile b o).Mounts = (if o.Mounts = [] then b.Mounts else o.Mounts) ∧
    (MergeProfile b o).WritablePaths = (if o.WritablePaths = [] then b.WritablePaths else o.WritablePaths) ∧
    (MergeProfile b o).ContainerName = (if o.ContainerName = "" then b.ContainerName else o.ContainerName) ∧
    (MergeProfile b o).NamePrefix = (if o.NamePrefix = "" then b.NamePrefix else o.NamePrefix) ∧
    (MergeProfile b o).MemoryLimit = (if o.MemoryLimit = "" then b.MemoryLimit else o.MemoryLimit) ∧
    (MergeProfile b o).CPULimit = (if o.CPULimit = "" then b.CPULimit else o.CPULimit) ∧
    (MergeProfile b o).Image = (if o.Image = "" then b.Image else o.Image) ∧
    (MergeProfile b o).Shell = (if o.Shell = "" then b.Shell else o.Shell) ∧
    (MergeProfile b o).User = (if o.User = "" then b.User else o.User) ∧
    (MergeProfile b o).PidsLimit = (if o.PidsLimit = 0 then b.PidsLimit else o.PidsLimit) ∧
    (o.PurgeOnExit = false → (MergeProfile b o).PurgeOnExit = b.PurgeOnExit) ∧
    (o.DisableNetwork = false → (MergeProfile b o).DisableNetwork = b.DisableNetwork) ∧
    (o.ReadOnlyRootFS = false → (MergeProfile b o).ReadOnlyRootFS = b.ReadOnlyRootFS) ∧
    (o.ForceAMD64 = false → (MergeProfile b o).ForceAMD64 = b.ForceAMD64) ∧
    (o.CapDropAll = false → (MergeProfile b o).CapDropAll = b.CapDropAll) ∧
    (o.NoNewPrivileges = false → (MergeProfile b o).NoNewPrivileges = b.NoNewPrivileges) ∧
    (o.Verbose = false → (MergeProfile b o).Verbose = b.Verbose) ∧
    (o.GracefulStop = false → (MergeProfile b o).GracefulStop = b.GracefulStop) ∧
    (MergeProfile b o).ProfileName = b.ProfileName ∧
    (MergeProfile b o).CachePackages = (o.CachePackages || b.CachePackages) ∧
    (MergeProfile b o).PurgeCache = (o.PurgeCache || b.PurgeCache) := by
  exact ⟨mergeProfile_Packages b o,
    mergeProfile_CopyPaths b o,
    mergeProfile_Mounts b o,
    mergeProfile_WritablePaths b o,
    mergeProfile_ContainerName b o,
    mergeProfile_NamePrefix b o,
    mergeProfile_MemoryLimit b o,
    mergeProfile_CPULimit b o,
    mergeProfile_Image b o,
    mergeProfile_Shell b o,
    mergeProfile_User b o,
    mergeProfile_PidsLimit b o,
    fun h => by rw [mergeProfile_PurgeOnExit, h, Bool.false_or],
    fun h => by rw [mergeProfile_DisableNetwork, h, Bool.false_or],
    fun h => by rw [mergeProfile_ReadOnlyRootFS, h, Bool.false_or],
    fun h => by rw [mergeProfile_ForceAMD64, h, Bool.false_or],
    fun h => by rw [mergeProfile_CapDropAll, h, Bool.false_or],
    fun h => by rw [mergeProfile_NoNewPrivileges, h, Bool.false_or],
    fun h => by rw [mergeProfile_Verbose, h, Bool.false_or],
    fun _ => mergeProfile_GracefulStop b o,
    mergeProfile_ProfileName b o,
    mergeProfile_CachePackages b o,
    mergeProfile_PurgeCache b o⟩

/-! ### BuildRunArgs -/

theorem foldl_append_flatMap {α β : Type} (f : α → List β) (xs : List α) :
    ∀ init : List β, xs.foldl (fun acc x => acc ++ f x) init = init ++ xs.flatMap f := by
  induction xs with
  | nil => intro init; simp
  | cons x xs ih => intro init; simp [ih]

theorem ite_append_self {β : Type} (c : Prop) [Decidable c] (a l : List β) :
    (if c then a ++ l else a) = a ++ (if c then l else []) := by
  split <;> simp

/-- The argument list of BuildRunArgs, laid out group by group. -/
theorem buildRunArgs_eq (cfg : RuntimeConfig) :
    BuildRunArgs cfg =
      "run" :: ((if cfg.PurgeOnExit then ["--rm"] else [])
        ++ (if cfg.DisableNetwork then ["--network", "none"] else [])
        ++ (if cfg.ReadOnlyRootFS then ["--read-only"] else [])
        ++ tmpfsArgs cfg.WritablePaths)
      ++ ((if cfg.MemoryLimit ≠ "" then ["--memory", cfg.MemoryLimit] else [])
        ++ (if cfg.CPULimit ≠ "" then ["--cpus", cfg.CPULimit] else [])
        ++ (if cfg.PidsLimit ≠ 0 then ["--pids-limit", toString cfg.PidsLimit] else [])
        ++ (if cfg.ForceAMD64 then ["--platform", "linux/amd64"] else [])
        ++ (if cfg.CapDropAll then ["--cap-drop", "ALL"] else [])
        ++ (if cfg.NoNewPrivileges then ["--security-opt", "no-new-privileges:true"] else [])
        ++ (if cfg.User ≠ "" then ["--user", cfg.User] else []))
      ++ cfg.Mounts.flatMap (fun m => ["--mount", bindMountArg (guessHomeForImage cfg.Image) m])
      ++ (if cfg.ContainerName ≠ "" then ["--name", cfg.ContainerName] else []) := by
  simp only [BuildRunArgs, tmpfsArgs, foldl_append_flatMap, ite_append_self]
  simp only [List.append_assoc, List.singleton_append, List.cons_append, List.nil_append]

/-! ### The steps of Run only add commands -/

theorem setupExt_refl (w : World) : w.setupExt w := ⟨[], by simp, by simp⟩

theorem setupExt_trans {a b c : World} (h1 : a.setupExt b) (h2 : b.setupExt c) :
    a.setupExt c := by
  obtain ⟨l1, e1, p1⟩ := h1
  obtain ⟨l2, e2, p2⟩ := h2
  refine ⟨l1 ++ l2, by rw [e2, e1, List.append_assoc], ?_⟩
  intro x hx
  rcases List.mem_append.mp hx with hx | hx
  · exact p1 x hx
  · exact p2 x hx

theorem setupExt_log (w : World) (line : String) : w.setupExt (w.log line) :=
  ⟨[], by simp [World.log], by simp⟩

theorem setupExt_logIf (w : World) (c : Prop) [Decidable c] (line : String) :
    w.setupExt (if c then w.log line else w) := by
  split
  · exact setupExt_log w line
  · exact setupExt_refl w

theorem setupExt_runDocker (eng : Engine) (w : World) (c : Cmd) (h : c.isSetup = true) :
    w.setupExt (runDocker eng w c).1 :=
  ⟨[c], rfl, by simpa using h⟩

theorem setupExt_runCmdInherit (eng : Engine) (w : World) (args : List String)
    (h : (⟨.inherit, args⟩ : Cmd).isSetup = true) : w.setupExt (runCmdInherit eng w args).1 :=
  setupExt_runDocker eng w _ h

theorem createWritablePaths_cmds (eng : Engine) (container : String) (paths : List String) :
    ∀ w : World, (createWritablePaths eng container paths w).cmds =
      w.cmds ++ paths.map (fun p => (⟨.inherit, mkdirArgs container p⟩ : Cmd)) := by
  induction paths with
  | nil => intro w; simp [createWritablePaths]
  | cons p rest ih =>
    intro w
    simp [createWritablePaths, ih, runCmdInherit, runDocker]

theorem createWritablePaths_ext (eng : Engine) (container : String) (paths : List String)
    (w : World) : w.setupExt (createWritablePaths eng container paths w) := by
  refine ⟨_, createWritablePaths_cmds eng container paths w, ?_⟩
  intro c hc
  obtain ⟨p, -, rfl⟩ := List.mem_map.mp hc
  rfl

theorem copyLoop_ext (eng : Engine) (verbose : Bool) (container homeDir : String)
    (paths : List String) :
    ∀ w : World, w.setupExt (copyLoop eng verbose container homeDir paths w).1 := by
  induction paths with
  | nil => intro w; exact setupExt_refl w
  | cons host rest ih =>
    intro w
    simp only [copyLoop]
    have h1 := setupExt_logIf w (verbose = true)
      ("+ docker cp " ++ host ++ " " ++ (container ++ ":" ++ homeDir))
    have h2 := setupExt_runCmdInherit eng
      (if verbose = true then
        w.log ("+ docker cp " ++ host ++ " " ++ (container ++ ":" ++ homeDir)) else w)
      ["cp", host, container ++ ":" ++ homeDir] rfl
    split
    · exact setupExt_trans h1 h2
    · refine setupExt_trans (setupExt_trans h1 h2) (setupExt_trans ?_ (ih _))
      exact setupExt_trans (setupExt_logIf _ (verbose = true) _)
        (setupExt_runCmdInherit eng _ _ rfl)

/-- When the engine never fails a copy-in command, the loop over the copy-in
paths ends without an error. -/
theorem copyLoop_ok (eng : Engine) (hcp : ∀ hist c, c.sub = some "cp" → (eng hist c).err = none)
    (verbose : Bool) (container homeDir : String) (paths : List String) :
    ∀ w : World, (copyLoop eng verbose container homeDir paths w).2 = none := by
  induction paths with
  | nil => intro w; rfl
  | cons host rest ih =>
    intro w
    simp only [copyLoop]
    split
    · next err heq =>
      have h := fun hist => hcp hist ⟨.inherit, ["cp", host, container ++ ":" ++ homeDir]⟩ rfl
      simp only [runCmdInherit, runDocker] at heq
      rw [h] at heq
      cases heq
    · exact ih _

theorem getContainerHome_ext (eng : Engine) (w : World) (container : String) :
    w.setupExt (getContainerHome eng w container).1 := by
  have h := setupExt_runDocker eng w
    ⟨.capture, ["exec", container, "sh", "-lc", "printf %s \"$HOME\""]⟩ rfl
  simp only [getContainerHome]
  split
  · exact h
  · split <;> exact h

theorem copyFiles_ext (eng : Engine) (cfg : RuntimeConfig) (container : String) (w : World) :
    w.setupExt (copyFiles eng cfg container w).1 := by
  simp only [copyFiles]
  split
  · exact setupExt_trans (getContainerHome_ext eng w container) (copyLoop_ext _ _ _ _ _ _)
  · exact setupExt_refl w

theorem copyFiles_ok (eng : Engine) (hcp : ∀ hist c, c.sub = some "cp" → (eng hist c).err = none)
    (cfg : RuntimeConfig) (container : String) (w : World) :
    (copyFiles eng cfg container w).2 = none := by
  simp only [copyFiles]
  split
  · exact copyLoop_ok eng hcp _ _ _ _ _
  · rfl

theorem brewInstalled_ext (eng : Engine) (w : World) (container pkg : String) :
    w.setupExt (brewInstalled eng w container pkg).1 := by
  have h := setupExt_runDocker eng w (brewInstalledCmd container pkg) rfl
  simp only [brewInstalled]
  split <;> exact h

theorem hasShell_ext (eng : Engine) (w : World) (container name : String) :
    w.setupExt (hasShell eng w container name).1 := by
  have h := setupExt_runDocker eng w (hasShellCmd container name) rfl
  simp only [hasShell]
  split <;> exact h

theorem filterMissing_ext (eng : Engine) (container : String) (pkgs : List String) :
    ∀ (w : World) (filter : List String),
      w.setupExt (filterMissing eng container pkgs w filter).1 := by
  induction pkgs with
  | nil => intro w filter; exact setupExt_refl w
  | cons p rest ih =>
    intro w filter
    simp only [filterMissing]
    exact setupExt_trans (brewInstalled_ext eng w container p) (ih _ _)

theorem installPackages_ext (eng : Engine) (cfg : RuntimeConfig) (container : String)
    (w : World) : w.setupExt (installPackages eng cfg container w) := by
  simp only [installPackages]
  split
  · have h1 := filterMissing_ext eng container cfg.Packages w []
    split
    · have h3 := setupExt_logIf (filterMissing eng container cfg.Packages w []).1
        (cfg.Verbose = true)
        ("+ docker " ++ strJoin (brewInstallHead container ++
          (filterMissing eng container cfg.Packages w []).2) " ")
      have h2 := setupExt_runCmdInherit eng
        (if cfg.Verbose = true then
          (filterMissing eng container cfg.Packages w []).1.log
            ("+ docker " ++ strJoin (brewInstallHead container ++
              (filterMissing eng container cfg.Packages w []).2) " ")
        else (filterMissing eng container cfg.Packages w []).1)
        (brewInstallHead container ++ (filterMissing eng container cfg.Packages w []).2) rfl
      split
      · exact setupExt_trans h1 (setupExt_trans h3 (setupExt_trans h2 (setupExt_log _ _)))
      · exact setupExt_trans h1 (setupExt_trans h3 h2)
    · exact h1
  · split
    · exact setupExt_log _ _
    · exact setupExt_refl w

theorem ensureFish_ext (eng : Engine) (cfg : RuntimeConfig) (container : String) (w : World) :
    w.setupExt (ensureFish eng cfg container w) := by
  simp only [ensureFish]
  split
  · have h1 := hasShell_ext eng w container "fish"
    split
    · exact setupExt_trans h1 (setupExt_trans (setupExt_logIf _ (cfg.Verbose = true) _)
        (setupExt_runCmdInherit eng _ _ rfl))
    · exact h1
  · exact setupExt_refl w

theorem chooseShell_ext (eng : Engine) (container : String) (names : List String) :
    ∀ w : World, w.setupExt (chooseShell eng container names w).1 := by
  induction names with
  | nil => intro w; exact setupExt_refl w
  | cons name rest ih =>
    intro w
    simp only [chooseShell]
    split
    · exact hasShell_ext eng w container name
    · exact setupExt_trans (hasShell_ext eng w container name) (ih _)

theorem execInteractiveShell_ext (eng : Engine) (w : World) (container preferred : String)
    (verbose : Bool) : w.setupExt (execInteractiveShell eng w container preferred verbose).1 := by
  simp only [execInteractiveShell]
  have h1 := chooseShell_ext eng container (shellCandidates preferred) w
  split
  · exact h1
  · exact setupExt_trans h1 (setupExt_trans (setupExt_logIf _ (verbose = true) _)
      (setupExt_runCmdInherit eng _ _ rfl))

/-! ### Teardown and the end of Run -/

theorem gracefulStop_cmds (eng : Engine) (w : World) (container : String)
    (cfg : RuntimeConfig) :
    (gracefulStop eng w container cfg).1.cmds = w.cmds ++ teardownCmds container cfg := by
  simp only [gracefulStop, teardownCmds, runCmdInherit, runDocker]
  cases cfg.GracefulStop <;> cases cfg.PurgeOnExit <;> simp

theorem gracefulStop_stderr (eng : Engine) (w : World) (container : String)
    (cfg : RuntimeConfig) : (gracefulStop eng w container cfg).1.stderr = w.stderr := by
  simp only [gracefulStop, runCmdInherit, runDocker]
  cases cfg.GracefulStop <;> cases cfg.PurgeOnExit <;> simp

theorem gracefulStop_none (eng : Engine) (w : World) (container : String)
    (cfg : RuntimeConfig) : (gracefulStop eng w container cfg).2 = none := rfl

theorem isTeardown_of_isSetup (c : Cmd) (h : c.isSetup = true) : c.isTeardown = false := by
  simp only [Cmd.isSetup, Bool.or_eq_true, beq_iff_eq] at h
  rcases h with h | h <;> simp only [Cmd.isTeardown, h] <;> decide

/-- The world in which the interactive shell step ends, the warning included. -/
theorem shellAndStop_spec (eng : Engine) (cfg : RuntimeConfig) (container : String)
    (w : World) :
    (shellAndStop eng cfg container w).2 = none ∧
      ∃ w1, w.setupExt w1 ∧
        (shellAndStop eng cfg container w).1.cmds = w1.cmds ++ teardownCmds container cfg := by
  have hx := execInteractiveShell_ext eng w container cfg.Shell cfg.Verbose
  have hl : ∀ w2 : World, w2.setupExt
      (if cfg.Verbose = true then
        if cfg.GracefulStop = true then w2.log ("+ docker stop --timeout 10 " ++ container)
        else w2.log ("+ docker kill " ++ container)
      else w2) := by
    intro w2
    split
    · split <;> exact setupExt_log _ _
    · exact setupExt_refl _
  simp only [shellAndStop, gracefulStop_none, gracefulStop_cmds, true_and]
  refine ⟨_, setupExt_trans ?_ (hl _), rfl⟩
  split
  · exact setupExt_trans hx (setupExt_log _ _)
  · exact hx

theorem session_spec (eng : Engine)
    (hcp : ∀ hist c, c.sub = some "cp" → (eng hist c).err = none) (p : Prepared) (w : World) :
    (session eng p w).2 = none ∧
      ∃ w1, w.setupExt w1 ∧
        (session eng p w).1.cmds = w1.cmds ++ teardownCmds p.containerName p.cfg := by
  have hok := copyFiles_ok eng hcp p.cfg p.containerName
    (createWritablePaths eng p.containerName p.cfg.WritablePaths w)
  have h1 := createWritablePaths_ext eng p.containerName p.cfg.WritablePaths w
  have h2 := copyFiles_ext eng p.cfg p.containerName
    (createWritablePaths eng p.containerName p.cfg.WritablePaths w)
  simp only [session]
  split
  · next w2 err heq => rw [heq] at hok; cases hok
  · next w2 heq =>
    rw [heq] at h2
    have h3 := installPackages_ext eng p.cfg p.containerName w2
    have h4 := ensureFish_ext eng p.cfg p.containerName
      (installPackages eng p.cfg p.containerName w2)
    obtain ⟨hn, w1, hw1, hc⟩ := shellAndStop_spec eng p.cfg p.containerName
      (ensureFish eng p.cfg p.containerName (installPackages eng p.cfg p.containerName w2))
    exact ⟨hn, w1, setupExt_trans h1 (setupExt_trans h2 (setupExt_trans h3
      (setupExt_trans h4 hw1))), hc⟩

/-! ### The preflight of Run -/

theorem defaultWritable_flags (cfg : RuntimeConfig) :
    (defaultWritable cfg).GracefulStop = cfg.GracefulStop ∧
      (defaultWritable cfg).PurgeOnExit = cfg.PurgeOnExit ∧
      (defaultWritable cfg).Shell = cfg.Shell ∧
      (defaultWritable cfg).ReadOnlyRootFS = cfg.ReadOnlyRootFS ∧
      (defaultWritable cfg).CopyPaths = cfg.CopyPaths ∧
      (defaultWritable cfg).Mounts = cfg.Mounts := by
  simp only [defaultWritable]
  split <;> simp

/-- The command nameExists runs. -/
theorem nameExists_cmds (eng : Engine) (w : World) (name : String) :
    (nameExists eng w name).1.cmds =
      w.cmds ++ [nameExistsCmd] := rfl

/-- What a successful preflight has established. -/
theorem prepare_ok (env : Host) (eng : Engine) (w0 w : World) (cfg : RuntimeConfig)
    (p : Prepared) (h : prepare env eng w0 cfg = (w, .ok p)) :
    w = (nameExists eng w0 (resolveName env cfg)).1 ∧
      p.containerName = resolveName env cfg ∧
      dockerNameRegex.MatchString p.containerName = true ∧
      (nameExists eng w0 (resolveName env cfg)).2 = false ∧
      ∃ copyPaths mounts, resolveCopyPaths env cfg.CopyPaths = .ok copyPaths ∧
        resolveMounts env cfg.Mounts = .ok mounts ∧
        p.cfg = defaultWritable { cfg with CopyPaths := copyPaths, Mounts := mounts } ∧
        p.img = if p.cfg.Image = "" then defaultImage else p.cfg.Image := by
  simp only [prepare] at h
  split at h
  · cases h
  · next hname =>
    split at h
    · cases h
    · next hex =>
      split at h
      · cases h
      · next copyPaths hcp =>
        split at h
        · cases h
        · next mounts hm =>
          simp only [Prod.mk.injEq, Except.ok.injEq] at h
          obtain ⟨rfl, rfl⟩ := h
          exact ⟨rfl, rfl, by simpa using hname, by simpa using hex, copyPaths, mounts, hcp, hm,
            rfl, rfl⟩

theorem createArgs_head (p : Prepared) : (createArgs p).head? = some "run" := by
  simp [createArgs, buildRunArgs_eq]

theorem createContainer_cmds (eng : Engine) (w : World) (p : Prepared) :
    (createContainer eng w p).1.cmds =
      w.cmds ++ [⟨if p.cfg.Verbose then .inherit else .quiet, createArgs p⟩] := by
  simp only [createContainer, runCmdInherit, runCmdQuiet, runDocker]
  cases p.cfg.Verbose <;> simp [World.log]

/-- The shape of a run whose preflight and creation succeed and whose copy-in
commands cannot fail: the existence query, the creation command, exec and
copy-in commands, and the teardown. -/
theorem run_shape (env : Host) (eng : Engine) (cfg : RuntimeConfig) (w : World) (p : Prepared)
    (hprep : prepare env eng ⟨[], []⟩ cfg = (w, .ok p))
    (hcreate : (createContainer eng w p).2 = none)
    (hcp : ∀ hist c, c.sub = some "cp" → (eng hist c).err = none) :
    (Run env eng cfg).2 = none ∧
      ∃ l, (∀ c ∈ l, c.isSetup = true) ∧
        (Run env eng cfg).1.cmds =
          [nameExistsCmd, ⟨if p.cfg.Verbose then .inherit else .quiet, createArgs p⟩] ++ l
            ++ teardownCmds p.containerName p.cfg := by
  have hc : createContainer eng w p = ((createContainer eng w p).1, none) := by
    rw [← hcreate]
  obtain ⟨hw, -⟩ := prepare_ok env eng _ w cfg p hprep
  obtain ⟨hn, w1, ⟨l, hl, hsetup⟩, hcmds⟩ := session_spec eng hcp p (createContainer eng w p).1
  have hrun : Run env eng cfg = session eng p (createContainer eng w p).1 := by
    simp only [Run, hprep]
    rw [hc]
  rw [hrun]
  refine ⟨hn, l, hsetup, ?_⟩
  rw [hcmds, hl, createContainer_cmds, hw, nameExists_cmds]
  simp

/-! ### Copy-in failure, missing shell, teardown -/

theorem run_eq_session (env : Host) (eng : Engine) (cfg : RuntimeConfig) (w : World)
    (p : Prepared) (hprep : prepare env eng ⟨[], []⟩ cfg = (w, .ok p))
    (hcreate : (createContainer eng w p).2 = none) :
    Run env eng cfg = session eng p (createContainer eng w p).1 := by
  have hc : createContainer eng w p = ((createContainer eng w p).1, none) := by
    rw [← hcreate]
  simp only [Run, hprep]
  rw [hc]

theorem session_eq_shellAndStop (eng : Engine)
    (hcp : ∀ hist c, c.sub = some "cp" → (eng hist c).err = none) (p : Prepared) (w : World) :
    session eng p w =
      shellAndStop eng p.cfg p.containerName
        (ensureFish eng p.cfg p.containerName (installPackages eng p.cfg p.containerName
          (copyFiles eng p.cfg p.containerName
            (createWritablePaths eng p.containerName p.cfg.WritablePaths w)).1)) := by
  have hok := copyFiles_ok eng hcp p.cfg p.containerName
    (createWritablePaths eng p.containerName p.cfg.WritablePaths w)
  simp only [session]
  split
  · next w2 err heq => rw [heq] at hok; cases hok
  · next w2 heq => rw [heq]

theorem chooseShell_none (eng : Engine) (container : String) (names : List String)
    (h : ∀ hist name, name ∈ names → (eng hist (hasShellCmd container name)).err ≠ none) :
    ∀ w : World, (chooseShell eng container names w).2 = "" := by
  induction names with
  | nil => intro w; rfl
  | cons name rest ih =>
    intro w
    have hf : (hasShell eng w container name).2 = false := by
      have := h w.cmds name (List.mem_cons_self _ _)
      simp only [hasShell, runDocker]
      split
      · rfl
      · next heq => exact absurd heq this
    simp only [chooseShell, hf]
    exact ih (fun hist n hn => h hist n (List.mem_cons_of_mem _ hn)) _

theorem execInteractiveShell_none (eng : Engine) (w : World) (container preferred : String)
    (verbose : Bool)
    (h : ∀ hist name, name ∈ shellCandidates preferred →
      (eng hist (hasShellCmd container name)).err ≠ none) :
    (execInteractiveShell eng w container preferred verbose).2 =
      some "no usable shell found" := by
  simp [execInteractiveShell, chooseShell_none eng container _ h w]

theorem shellAndStop_warns (eng : Engine) (cfg : RuntimeConfig) (container : String)
    (w : World) (msg : String)
    (h : (execInteractiveShell eng w container cfg.Shell cfg.Verbose).2 = some msg) :
    ("warning: interactive shell failed: " ++ msg) ∈
      (shellAndStop eng cfg container w).1.stderr := by
  simp only [shellAndStop, h, gracefulStop_none, gracefulStop_stderr]
  split
  · split <;> simp [World.log]
  · simp [World.log]

theorem teardownCmds_congr (container : String) (a b : RuntimeConfig)
    (h1 : a.GracefulStop = b.GracefulStop) (h2 : a.PurgeOnExit = b.PurgeOnExit) :
    teardownCmds container a = teardownCmds container b := by
  simp [teardownCmds, h1, h2]

theorem prepare_teardown (env : Host) (eng : Engine) (w0 w : World) (cfg : RuntimeConfig)
    (p : Prepared) (h : prepare env eng w0 cfg = (w, .ok p)) :
    teardownCmds p.containerName p.cfg = teardownCmds (resolveName env cfg) cfg := by
  obtain ⟨-, hn, -, -, cps, ms, -, -, hcfg, -⟩ := prepare_ok env eng w0 w cfg p h
  rw [hn, hcfg]
  exact teardownCmds_congr _ _ _ (defaultWritable_flags _).1 (defaultWritable_flags _).2.1

/-- C5. On the host where `/data` exists and the engine whose copy-in command
fails, Run of a purging, gracefully stopping configuration with the copy-in path
`/data` returns the copy error after the existence query, the creation, the home
query and the copy-in command: no stop, kill or remove command is issued. -/
theorem run_copy_failure_skips_teardown :
    Run sampleHost copyFailsEngine copyConfig =
      (⟨[nameExistsCmd,
          ⟨.quiet, ["run", "--rm", "--name", "lab1", "--detach", "--name", "lab1",
            "--entrypoint", "tail", "homebrew/brew:latest", "-f", "/dev/null"]⟩,
          ⟨.capture, ["exec", "lab1", "sh", "-lc", "printf %s \"$HOME\""]⟩,
          ⟨.inherit, ["cp", "/data", "lab1:/home/linuxbrew"]⟩], []⟩,
        some (.dockerCpFailed "/data" "exit status 1")) ∧
    (Run sampleHost copyFailsEngine copyConfig).1.cmds.all (fun c => !c.isTeardown) = true := by
  decide

/-- C6 (as amended). When the preflight and the creation succeed, no copy-in
command fails and the probe of every candidate shell fails, Run reports `no
usable shell found` as a warning on the error stream, ends with the teardown
commands and returns no error. -/
theorem run_no_shell_warns (env : Host) (eng : Engine) (cfg : RuntimeConfig) (w : World)
    (p : Prepared) (hprep : prepare env eng ⟨[], []⟩ cfg = (w, .ok p))
    (hcreate : (createContainer eng w p).2 = none)
    (hcp : ∀ hist c, c.sub = some "cp" → (eng hist c).err = none)
    (hshell : ∀ hist name, name ∈ shellCandidates cfg.Shell →
      (eng hist (hasShellCmd (resolveName env cfg) name)).err ≠ none) :
    (Run env eng cfg).2 = none ∧
      "warning: interactive shell failed: no usable shell found" ∈ (Run env eng cfg).1.stderr ∧
      ∃ before, (Run env eng cfg).1.cmds = before ++ teardownCmds (resolveName env cfg) cfg := by
  obtain ⟨hnone, l, -, hcmds⟩ := run_shape env eng cfg w p hprep hcreate hcp
  refine ⟨hnone, ?_, ⟨_, by rw [hcmds, prepare_teardown env eng _ w cfg p hprep]⟩⟩
  obtain ⟨-, hn, -, -, cps, ms, -, -, hcfg, -⟩ := prepare_ok env eng _ w cfg p hprep
  have hsh : p.cfg.Shell = cfg.Shell := by rw [hcfg]; exact (defaultWritable_flags _).2.2.1
  rw [run_eq_session env eng cfg w p hprep hcreate, session_eq_shellAndStop eng hcp]
  apply shellAndStop_warns
  apply execInteractiveShell_none
  rw [hsh, hn]
  exact hshell

/-- Witness of C6 (as amended): the named instance `lab1` on an engine whose
probes all fail. -/
theorem run_no_shell_warns_witness :
    prepare sampleHost noShellEngine ⟨[], []⟩ labConfig =
        (⟨[nameExistsCmd], []⟩, .ok ⟨"lab1", labConfig, "homebrew/brew:latest"⟩) ∧
      (Run sampleHost noShellEngine labConfig).2 = none ∧
      "warning: interactive shell failed: no usable shell found" ∈
        (Run sampleHost noShellEngine labConfig).1.stderr ∧
      ∃ before, (Run sampleHost noShellEngine labConfig).1.cmds =
        before ++ teardownCmds (resolveName sampleHost labConfig) labConfig :=
  ⟨by rfl,
    run_no_shell_warns sampleHost noShellEngine labConfig ⟨[nameExistsCmd], []⟩
      ⟨"lab1", labConfig, "homebrew/brew:latest"⟩
      (by rfl) (by decide) (fun _ _ h => by simp [noShellEngine, h])
      (fun _ _ _ => by simp [noShellEngine, hasShellCmd, Cmd.sub])⟩

/-- Counterexample to C6 as stated: creation succeeds, nothing is staged, the
probe of every shell fails, and Run returns no error; the failure is only a
line on the error stream. -/
theorem run_no_shell_returns_nil :
    (∀ hist name, (noShellEngine hist (hasShellCmd "lab1" name)).err = some "exit status 1") ∧
    Run sampleHost noShellEngine labConfig =
      (⟨[nameExistsCmd,
          ⟨.quiet, ["run", "--name", "lab1", "--detach", "--name", "lab1",
            "--entrypoint", "tail", "homebrew/brew:latest", "-f", "/dev/null"]⟩,
          hasShellCmd "lab1" "fish",
          ⟨.inherit, brewInstallHead "lab1" ++ ["fish"]⟩,
          hasShellCmd "lab1" "fish", hasShellCmd "lab1" "bash", hasShellCmd "lab1" "zsh",
          hasShellCmd "lab1" "sh",
          ⟨.inherit, ["kill", "lab1"]⟩],
        ["warning: interactive shell failed: no usable shell found"]⟩, none) :=
  ⟨fun _ _ => rfl, by decide⟩

/-- C9. When the preflight and the creation succeed and no copy-in command
fails, then, whatever the engine answers to every other command, Run returns no
error and its commands end with the teardown: `stop --timeout 10` on the
instance when graceful stop is set and `kill` otherwise, followed by `rm`
exactly when purge is set; no stop, kill or remove command comes before; and
gracefulStop returns no error whatever the engine answers. -/
theorem run_ends_with_teardown (env : Host) (eng : Engine) (cfg : RuntimeConfig) (w : World)
    (p : Prepared) (hprep : prepare env eng ⟨[], []⟩ cfg = (w, .ok p))
    (hcreate : (createContainer eng w p).2 = none)
    (hcp : ∀ hist c, c.sub = some "cp" → (eng hist c).err = none) :
    (Run env eng cfg).2 = none ∧
      (∃ before, (Run env eng cfg).1.cmds =
          before ++
            ((if cfg.GracefulStop then
                [(⟨.inherit, ["stop", "--timeout", "10", resolveName env cfg]⟩ : Cmd)]
              else [⟨.inherit, ["kill", resolveName env cfg]⟩])
              ++ (if cfg.PurgeOnExit then [⟨.inherit, ["rm", resolveName env cfg]⟩] else []))
          ∧ ∀ c ∈ before, c.isTeardown = false) ∧
      ∀ (eng2 : Engine) (w2 : World) (name : String) (cfg2 : RuntimeConfig),
        (gracefulStop eng2 w2 name cfg2).2 = none := by
  obtain ⟨hnone, l, hl, hcmds⟩ := run_shape env eng cfg w p hprep hcreate hcp
  refine ⟨hnone, ⟨_, by rw [hcmds, prepare_teardown env eng _ w cfg p hprep]; rfl, ?_⟩,
    fun _ _ _ _ => rfl⟩
  intro c hc
  simp only [List.cons_append, List.nil_append, List.mem_cons] at hc
  rcases hc with rfl | rfl | hc
  · rfl
  · simp [Cmd.isTeardown, Cmd.sub, createArgs_head]
  · exact isTeardown_of_isSetup c (hl c hc)

/-- Witness of C9: a purging, gracefully stopping run with one copy-in path on
an engine that fails nothing. -/
theorem run_ends_with_teardown_witness :
    prepare sampleHost obligingEngine ⟨[], []⟩ copyConfig =
        (⟨[nameExistsCmd], []⟩, .ok ⟨"lab1", copyConfig, "homebrew/brew:latest"⟩) ∧
      (Run sampleHost obligingEngine copyConfig).2 = none ∧
      (∃ before, (Run sampleHost obligingEngine copyConfig).1.cmds =
          before ++
            ((if copyConfig.GracefulStop then
                [(⟨.inherit, ["stop", "--timeout", "10", resolveName sampleHost copyConfig]⟩ : Cmd)]
              else [⟨.inherit, ["kill", resolveName sampleHost copyConfig]⟩])
              ++ (if copyConfig.PurgeOnExit then
                [⟨.inherit, ["rm", resolveName sampleHost copyConfig]⟩] else []))
          ∧ ∀ c ∈ before, c.isTeardown = false) ∧
      ∀ (eng2 : Engine) (w2 : World) (name : String) (cfg2 : RuntimeConfig),
        (gracefulStop eng2 w2 name cfg2).2 = none :=
  ⟨by rfl,
    run_ends_with_teardown sampleHost obligingEngine copyConfig ⟨[nameExistsCmd], []⟩
      ⟨"lab1", copyConfig, "homebrew/brew:latest"⟩ (by rfl) (by decide) (fun _ _ _ => rfl)⟩

/-! ### Mount destinations -/

theorem splitOnChar_no_sep (sep : Char) (cs : List Char) (h : sep ∉ cs) :
    splitOnChar sep cs = [cs] := by
  induction cs with
  | nil => rfl
  | cons c t ih =>
    have hc : c ≠ sep := fun e => h (by simp [e])
    have ht : sep ∉ t := fun e => h (List.mem_cons_of_mem _ e)
    simp [splitOnChar, hc, ih ht]

theorem containsList_single (c : Char) (cs : List Char) :
    containsList [c] cs = true ↔ c ∈ cs := by
  induction cs with
  | nil => simp [containsList]
  | cons d t ih =>
    simp only [containsList, Bool.or_eq_true, ih, List.mem_cons]
    constructor
    · rintro (h | h)
      · left
        simp [List.isPrefixOf] at h
        exact h
      · exact Or.inr h
    · rintro (h | h)
      · left
        simp [List.isPrefixOf, h]
      · exact Or.inr h

theorem strContains_colon (m : String) : strContains m ":" = true ↔ ':' ∈ m.data :=
  containsList_single ':' m.data

theorem beforeSep_append (sep : Char) (a b : List Char) (h : sep ∉ a) :
    beforeSep sep (a ++ sep :: b) = a := by
  induction a with
  | nil => simp [beforeSep]
  | cons c t ih =>
    have hc : c ≠ sep := fun e => h (by simp [e])
    have ht : sep ∉ t := fun e => h (List.mem_cons_of_mem _ e)
    simp [beforeSep, hc, ih ht]

theorem afterSep_append (sep : Char) (a b : List Char) (h : sep ∉ a) :
    afterSep sep (a ++ sep :: b) = b := by
  induction a with
  | nil => simp [afterSep]
  | cons c t ih =>
    have hc : c ≠ sep := fun e => h (by simp [e])
    have ht : sep ∉ t := fun e => h (List.mem_cons_of_mem _ e)
    simp [afterSep, hc, ih ht]

/-- Cleaning `/root/b` and `/home/linuxbrew/b` for a plain element `b`. -/
theorem cleanList_home (b : List Char) (h1 : '/' ∉ b) (h2 : b ≠ []) (h3 : b ≠ ['.'])
    (h4 : b ≠ ['.', '.']) :
    cleanList ("/root".data ++ '/' :: b) = "/root".data ++ '/' :: b ∧
      cleanList ("/home/linuxbrew".data ++ '/' :: b) = "/home/linuxbrew".data ++ '/' :: b := by
  constructor
  · show cleanList ('/' :: 'r' :: 'o' :: 'o' :: 't' :: '/' :: b) = _
    simp [cleanList, splitOnChar, splitOnChar_no_sep _ _ h1, cleanStep, h2, h3, h4,
      List.intercalate]
  · show cleanList ('/' :: 'h' :: 'o' :: 'm' :: 'e' :: '/' :: 'l' :: 'i' :: 'n' :: 'u' :: 'x'
      :: 'b' :: 'r' :: 'e' :: 'w' :: '/' :: b) = _
    simp [cleanList, splitOnChar, splitOnChar_no_sep _ _ h1, cleanStep, h2, h3, h4,
      List.intercalate]


theorem filepathBase_data (m : String) :
    filepathBase m = "/" ∨ ('/' ∉ (filepathBase m).data ∧ (filepathBase m).data ≠ []) := by
  unfold filepathBase
  split
  · right; decide
  · simp only []
    split
    · left; rfl
    · next hne =>
      right
      refine ⟨?_, hne⟩
      intro hmem
      simp only [List.mem_reverse] at hmem
      have := List.mem_takeWhile_imp hmem
      simp at this

theorem strJoin_pair (a b : String) : strJoin [a, b] "/" = a ++ "/" ++ b := by
  simp [strJoin, String.intercalate, String.intercalate.go]

/-- Joining the home directory of an image with a plain base name appends the
name. -/
theorem filepathJoin_home (image : String) (b : String) (h1 : '/' ∉ b.data) (h2 : b ≠ "")
    (h3 : b ≠ ".") (h4 : b ≠ "..") :
    filepathJoin [guessHomeForImage image, b] = guessHomeForImage image ++ "/" ++ b := by
  have hd : ∀ t : String, b ≠ t → b.data ≠ t.data := by
    intro t h e
    apply h
    cases b; cases t
    simp_all
  obtain ⟨hr, hl⟩ := cleanList_home b.data h1 (hd "" h2) (hd "." h3) (hd ".." h4)
  unfold guessHomeForImage
  split
  · have : filepathJoin ["/home/linuxbrew", b] = filepathClean (strJoin ["/home/linuxbrew", b] "/") :=
      rfl
    rw [this, strJoin_pair]
    apply String.ext
    simpa [filepathClean] using hl
  · have : filepathJoin ["/root", b] = filepathClean (strJoin ["/root", b] "/") := rfl
    rw [this, strJoin_pair]
    apply String.ext
    simpa [filepathClean] using hr


theorem bindMountArg_plain (home m : String) (h : ':' ∉ m.data) :
    bindMountArg home m =
      "type=bind,src=" ++ m ++ ",dst=" ++ filepathJoin [home, filepathBase m] := by
  have hc : strContains m ":" = false := by
    rw [← Bool.not_eq_true, strContains_colon]
    exact h
  simp [bindMountArg, hc]

theorem bindMountArg_pair (home host container : String) (h : ':' ∉ host.data) :
    bindMountArg home (host ++ ":" ++ container) =
      "type=bind,src=" ++ host ++ ",dst=" ++ container := by
  have hd : (host ++ ":" ++ container).data = host.data ++ ':' :: container.data := by
    simp [String.data_append]
  have hc : strContains (host ++ ":" ++ container) ":" = true := by
    rw [strContains_colon, hd]
    simp
  simp only [bindMountArg, hc, if_true, splitColon2, hd, beforeSep_append _ _ _ h,
    afterSep_append _ _ _ h]

theorem mount_pair_infix (cfg : RuntimeConfig) (m : String) (hm : m ∈ cfg.Mounts) :
    ["--mount", bindMountArg (guessHomeForImage cfg.Image) m] <:+: BuildRunArgs cfg := by
  obtain ⟨l1, l2, hl⟩ := List.append_of_mem hm
  rw [buildRunArgs_eq, hl]
  simp only [List.flatMap_append, List.flatMap_cons]
  have h1 : ["--mount", bindMountArg (guessHomeForImage cfg.Image) m] <:+:
      (l1.flatMap fun m => ["--mount", bindMountArg (guessHomeForImage cfg.Image) m]) ++
        (["--mount", bindMountArg (guessHomeForImage cfg.Image) m] ++
          l2.flatMap fun m => ["--mount", bindMountArg (guessHomeForImage cfg.Image) m]) := by
    rw [← List.append_assoc]
    exact List.infix_append _ _ _
  exact h1.trans (List.infix_append _ _ _)

/-- C7 (as amended). For each mount string of the configuration BuildRunArgs
emits the pair `--mount`, `type=bind,src=..,dst=..`: for a string without `:`
the source is the string and the destination is the image home joined with the
base name of the string, which is home, `/`, base name whenever the base name is
none of `.`, `..` and `/`; for `host:container` the source is the host and the
destination the container path as given.  The image home is `/home/linuxbrew`
for the empty image and an image containing `homebrew/brew`, `/root` for every
other image. -/
theorem buildRunArgs_mount (cfg : RuntimeConfig) (m : String) (hm : m ∈ cfg.Mounts) :
    (':' ∉ m.data →
      ["--mount", "type=bind,src=" ++ m ++ ",dst=" ++
          filepathJoin [guessHomeForImage cfg.Image, filepathBase m]] <:+: BuildRunArgs cfg) ∧
    (':' ∉ m.data → filepathBase m ≠ "." → filepathBase m ≠ ".." → filepathBase m ≠ "/" →
      ["--mount", "type=bind,src=" ++ m ++ ",dst=" ++
          (guessHomeForImage cfg.Image ++ "/" ++ filepathBase m)] <:+: BuildRunArgs cfg) ∧
    (∀ host container : String, m = host ++ ":" ++ container → ':' ∉ host.data →
      ["--mount", "type=bind,src=" ++ host ++ ",dst=" ++ container] <:+: BuildRunArgs cfg) ∧
    guessHomeForImage cfg.Image =
      (if cfg.Image = "" ∨ strContains cfg.Image "homebrew/brew" = true then "/home/linuxbrew"
        else "/root") := by
  have hin := mount_pair_infix cfg m hm
  refine ⟨?_, ?_, ?_, rfl⟩
  · intro hc
    rw [← bindMountArg_plain _ _ hc]
    exact hin
  · intro hc h1 h2 h3
    have hb := filepathBase_data m
    rcases hb with hb | ⟨hb1, hb2⟩
    · exact absurd hb h3
    · have hne : filepathBase m ≠ "" := by
        intro e
        rw [e] at hb2
        exact hb2 rfl
      rw [← filepathJoin_home cfg.Image _ hb1 hne h1 h2, ← bindMountArg_plain _ _ hc]
      exact hin
  · intro host container hmc hc
    rw [← bindMountArg_pair (guessHomeForImage cfg.Image) host container hc, ← hmc]
    exact hin

/-- Witness of C7 (as amended): the mount of the test of BuildRunArgs. -/
theorem buildRunArgs_mount_witness :
    "/host/path" ∈ mountConfig.Mounts ∧
      ["--mount", "type=bind,src=/host/path,dst=/home/linuxbrew/path"] <:+:
        BuildRunArgs mountConfig :=
  ⟨by decide,
    (buildRunArgs_mount mountConfig "/host/path" (by decide)).2.1 (by decide) (by decide)
      (by decide) (by decide)⟩

/-- Counterexample to C7 as stated: the mount `..` has the base name `..`, and
its destination under the home `/root` is `/`, not `/root/..`; the mount `/`
has the base name `/`, and its destination under `/home/linuxbrew` is the home
itself. -/
theorem buildRunArgs_mount_parent :
    strContains ".." ":" = false ∧ filepathBase ".." = ".." ∧
      guessHomeForImage parentMountConfig.Image = "/root" ∧
      BuildRunArgs parentMountConfig = ["run", "--mount", "type=bind,src=..,dst=/"] ∧
      ¬ (["--mount", "type=bind,src=..,dst=/root/.."] <:+: BuildRunArgs parentMountConfig) ∧
      filepathBase "/" = "/" ∧
      BuildRunArgs rootMountConfig =
        ["run", "--mount", "type=bind,src=/,dst=/home/linuxbrew"] := by
  decide

/-! ### Writable paths -/

theorem defaultWritable_paths (cfg : RuntimeConfig) :
    (defaultWritable cfg).WritablePaths =
      if cfg.ReadOnlyRootFS = true ∧ cfg.WritablePaths = [] then ["/tmp"]
      else cfg.WritablePaths := by
  simp only [defaultWritable, List.length_eq_zero]
  split <;> rfl

theorem session_cmds (eng : Engine) (p : Prepared) (w : World) :
    ∃ rest, (session eng p w).1.cmds =
      w.cmds ++ p.cfg.WritablePaths.map (fun q => (⟨.inherit, mkdirArgs p.containerName q⟩ : Cmd))
        ++ rest := by
  have h2 := copyFiles_ext eng p.cfg p.containerName
    (createWritablePaths eng p.containerName p.cfg.WritablePaths w)
  simp only [session]
  split
  · next w2 err heq =>
    rw [heq] at h2
    obtain ⟨l, hl, -⟩ := h2
    exact ⟨l, by rw [hl, createWritablePaths_cmds]⟩
  · next w2 heq =>
    rw [heq] at h2
    have h3 := installPackages_ext eng p.cfg p.containerName w2
    have h4 := ensureFish_ext eng p.cfg p.containerName
      (installPackages eng p.cfg p.containerName w2)
    obtain ⟨-, w1, hw1, hc⟩ := shellAndStop_spec eng p.cfg p.containerName
      (ensureFish eng p.cfg p.containerName (installPackages eng p.cfg p.containerName w2))
    obtain ⟨l, hl, -⟩ := setupExt_trans h2 (setupExt_trans h3 (setupExt_trans h4 hw1))
    exact ⟨l ++ teardownCmds p.containerName p.cfg,
      by rw [hc, hl, createWritablePaths_cmds, List.append_assoc]⟩

/-- C8. After a successful preflight the writable-path list of Run is `/tmp`
alone when a read-only root is requested and no writable path is configured,
and the configured list in every other case; the creation command, the second
command Run issues, carries after `run` and the purge, network and read-only
flags one `--mount type=tmpfs,destination=` pair for each path of that list, in
order; and when the creation succeeds, the commands that follow it start with
one `mkdir -p` for each path of that list. -/
theorem run_writable_paths (env : Host) (eng : Engine) (cfg : RuntimeConfig) (w : World)
    (p : Prepared) (hprep : prepare env eng ⟨[], []⟩ cfg = (w, .ok p)) :
    p.cfg.WritablePaths =
        (if cfg.ReadOnlyRootFS = true ∧ cfg.WritablePaths = [] then ["/tmp"]
          else cfg.WritablePaths) ∧
      (∃ post, createArgs p =
        "run" :: ((if p.cfg.PurgeOnExit then ["--rm"] else [])
          ++ (if p.cfg.DisableNetwork then ["--network", "none"] else [])
          ++ (if p.cfg.ReadOnlyRootFS then ["--read-only"] else [])
          ++ p.cfg.WritablePaths.flatMap (fun q => ["--mount", "type=tmpfs,destination=" ++ q]))
          ++ post) ∧
      ∃ rest, (Run env eng cfg).1.cmds =
          nameExistsCmd :: ⟨if p.cfg.Verbose then .inherit else .quiet, createArgs p⟩ :: rest ∧
        ((createContainer eng w p).2 = none →
          ∃ rest2, rest =
            p.cfg.WritablePaths.map (fun q => (⟨.inherit, mkdirArgs p.containerName q⟩ : Cmd))
              ++ rest2) := by
  obtain ⟨hw, -, -, -, cps, ms, -, -, hcfg, -⟩ := prepare_ok env eng _ w cfg p hprep
  refine ⟨?_, ?_, ?_⟩
  · rw [hcfg, defaultWritable_paths]
  · refine ⟨((if p.cfg.MemoryLimit ≠ "" then ["--memory", p.cfg.MemoryLimit] else [])
        ++ (if p.cfg.CPULimit ≠ "" then ["--cpus", p.cfg.CPULimit] else [])
        ++ (if p.cfg.PidsLimit ≠ 0 then ["--pids-limit", toString p.cfg.PidsLimit] else [])
        ++ (if p.cfg.ForceAMD64 then ["--platform", "linux/amd64"] else [])
        ++ (if p.cfg.CapDropAll then ["--cap-drop", "ALL"] else [])
        ++ (if p.cfg.NoNewPrivileges then ["--security-opt", "no-new-privileges:true"] else [])
        ++ (if p.cfg.User ≠ "" then ["--user", p.cfg.User] else []))
      ++ p.cfg.Mounts.flatMap
        (fun m => ["--mount", bindMountArg (guessHomeForImage p.cfg.Image) m])
      ++ (if p.cfg.ContainerName ≠ "" then ["--name", p.cfg.ContainerName] else [])
      ++ ["--detach", "--name", p.containerName, "--entrypoint", "tail", p.img, "-f",
        "/dev/null"], ?_⟩
    simp only [createArgs, buildRunArgs_eq, tmpfsArgs, List.append_assoc, List.cons_append,
      List.nil_append]
  · cases hcr : (createContainer eng w p).2 with
    | none =>
      obtain ⟨rest, hrest⟩ := session_cmds eng p (createContainer eng w p).1
      refine ⟨_, ?_, fun _ => ⟨rest, rfl⟩⟩
      rw [run_eq_session env eng cfg w p hprep hcr, hrest, createContainer_cmds, hw,
        nameExists_cmds]
      simp
    | some e =>
      have hc : createContainer eng w p = ((createContainer eng w p).1, some e) := by
        rw [← hcr]
      refine ⟨[], ?_, fun h => by cases h⟩
      simp only [Run, hprep]
      rw [hc]
      simp only []
      rw [createContainer_cmds, hw, nameExists_cmds]
      simp

/-- Witness of C8: a read-only root without writable paths gets `/tmp`. -/
theorem run_writable_paths_witness :
    prepare sampleHost obligingEngine ⟨[], []⟩ readOnlyConfig =
        (⟨[nameExistsCmd], []⟩,
          .ok ⟨"lab1", { readOnlyConfig with WritablePaths := ["/tmp"] },
            "homebrew/brew:latest"⟩) ∧
      (Run sampleHost obligingEngine readOnlyConfig).1.cmds.take 3 =
        [nameExistsCmd,
          ⟨.quiet, ["run", "--read-only", "--mount", "type=tmpfs,destination=/tmp", "--name",
            "lab1", "--detach", "--name", "lab1", "--entrypoint", "tail",
            "homebrew/brew:latest", "-f", "/dev/null"]⟩,
          ⟨.inherit, ["exec", "-u", "0", "lab1", "mkdir", "-p", "/tmp"]⟩] ∧
      ({ readOnlyConfig with WritablePaths := ["/tmp"] } : RuntimeConfig).WritablePaths =
        (if readOnlyConfig.ReadOnlyRootFS = true ∧ readOnlyConfig.WritablePaths = [] then
          ["/tmp"] else readOnlyConfig.WritablePaths) :=
  ⟨by rfl, by decide,
    (run_writable_paths sampleHost obligingEngine readOnlyConfig ⟨[nameExistsCmd], []⟩
      ⟨"lab1", { readOnlyConfig with WritablePaths := ["/tmp"] }, "homebrew/brew:latest"⟩
      (by rfl)).1⟩

/-! ### Teardown entered twice -/

theorem teardownCmds_isTeardown (container : String) (cfg : RuntimeConfig) :
    ∀ c ∈ teardownCmds container cfg, c.isTeardown = true := by
  intro c hc
  simp only [teardownCmds, List.mem_append] at hc
  rcases hc with hc | hc
  · split at hc <;> simp at hc <;> subst hc <;> rfl
  · split at hc <;> simp at hc
    subst hc
    rfl

/-- The remove commands among a list of commands. -/
theorem teardownCmds_rm (container : String) (cfg : RuntimeConfig) :
    (teardownCmds container cfg).filter (fun c => c.sub == some "rm") =
      if cfg.PurgeOnExit then [⟨.inherit, ["rm", container]⟩] else [] := by
  simp only [teardownCmds]
  cases cfg.GracefulStop <;> cases cfg.PurgeOnExit <;> simp [List.filter, Cmd.sub]

/-- C10 (as amended). Entered twice in succession for the same instance,
gracefulStop returns no error on either invocation, whatever the engine
answers; it has no guard against re-entry, so each invocation issues its stop
or kill command again and, when purge is set, its remove command again: over
the two invocations the remove command is issued twice when purge is set and
never otherwise. -/
theorem teardown_twice (eng : Engine) (w : World) (container : String) (cfg : RuntimeConfig) :
    (teardownTwice eng w container cfg).2.1 = none ∧
      (teardownTwice eng w container cfg).2.2 = none ∧
      (teardownTwice eng w container cfg).1.cmds =
        w.cmds ++ (teardownCmds container cfg ++ teardownCmds container cfg) ∧
      (teardownCmds container cfg ++ teardownCmds container cfg).filter
          (fun c => c.sub == some "rm") =
        (if cfg.PurgeOnExit then
          [⟨.inherit, ["rm", container]⟩, ⟨.inherit, ["rm", container]⟩] else []) := by
  refine ⟨rfl, rfl, ?_, ?_⟩
  · simp only [teardownTwice, gracefulStop_cmds, List.append_assoc]
  · rw [List.filter_append, teardownCmds_rm]
    cases cfg.PurgeOnExit <;> simp

/-- Counterexample to C10 as stated: teardown of a purging configuration entered
twice on an engine that fails nothing issues the remove command twice, and the
engine answers both with success. -/
theorem teardown_twice_removes_twice :
    (teardownTwice obligingEngine ⟨[], []⟩ "lab1" copyConfig).1.cmds =
        [⟨.inherit, ["stop", "--timeout", "10", "lab1"]⟩, ⟨.inherit, ["rm", "lab1"]⟩,
          ⟨.inherit, ["stop", "--timeout", "10", "lab1"]⟩, ⟨.inherit, ["rm", "lab1"]⟩] ∧
      (teardownTwice obligingEngine ⟨[], []⟩ "lab1" copyConfig).1.cmds.count
        ⟨.inherit, ["rm", "lab1"]⟩ = 2 ∧
      (∀ hist, (obligingEngine hist ⟨.inherit, ["rm", "lab1"]⟩).err = none) ∧
      (teardownTwice obligingEngine ⟨[], []⟩ "lab1" copyConfig).2 = (none, none) :=
  ⟨by decide, by decide, fun _ => rfl, by decide⟩

/-! ### The name flag of the creation command -/

theorem flatMap_ite_single {α β : Type} (c : Prop) [Decidable c] (a : α) (f : α → List β) :
    (if c then [a] else []).flatMap f = if c then f a else [] := by
  split <;> simp

theorem flatMap_map_args {α : Type} (g : α → Opt) (xs : List α) :
    (xs.map g).flatMap Opt.args = xs.flatMap (fun x => (g x).args) := by
  induction xs with
  | nil => rfl
  | cons x t ih => simp [ih]

/-- The argument list of BuildRunArgs is `run` followed by the arguments of its
options. -/
theorem buildRunArgs_options (cfg : RuntimeConfig) :
    BuildRunArgs cfg = "run" :: (runOptions cfg).flatMap Opt.args := by
  rw [buildRunArgs_eq]
  simp only [runOptions, tmpfsArgs, List.flatMap_append, flatMap_ite_single, flatMap_map_args,
    Opt.args, Option.toList, List.append_assoc, List.cons_append]

theorem filter_ite_single {α : Type} (c : Prop) [Decidable c] (a : α) (q : α → Bool) :
    (if c then [a] else []).filter q = if c ∧ q a = true then [a] else [] := by
  by_cases h : c <;> by_cases h2 : q a = true <;> simp [h, h2]

theorem nameOptions_runOptions (cfg : RuntimeConfig) :
    nameOptions (runOptions cfg) =
      if cfg.ContainerName = "" then [] else [⟨"--name", some cfg.ContainerName⟩] := by
  have hm : ∀ (g : String → String) (xs : List String),
      (xs.map (fun x => (⟨"--mount", some (g x)⟩ : Opt))).filter
        (fun o => o.flag == "--name") = [] := by
    intro g xs
    induction xs with
    | nil => rfl
    | cons x t ih =>
      simp only [List.map_cons, List.filter_cons, ih]
      rfl
  simp only [nameOptions, runOptions, List.filter_append, filter_ite_single, hm]
  by_cases h : cfg.ContainerName = "" <;> simp [h]


theorem createArgs_options (p : Prepared) :
    createArgs p =
      "run" :: (createOptions p).flatMap Opt.args ++ [p.img, "-f", "/dev/null"] := by
  simp [createArgs, createOptions, buildRunArgs_options, Opt.args]

/-- The first two commands of a run whose preflight succeeds: the existence
query and the creation command. -/
theorem run_cmds_head (env : Host) (eng : Engine) (cfg : RuntimeConfig) (w : World)
    (p : Prepared) (hprep : prepare env eng ⟨[], []⟩ cfg = (w, .ok p)) :
    ∃ rest, (Run env eng cfg).1.cmds =
      nameExistsCmd :: ⟨if p.cfg.Verbose then .inherit else .quiet, createArgs p⟩ :: rest := by
  obtain ⟨hw, -⟩ := prepare_ok env eng _ w cfg p hprep
  cases hcr : (createContainer eng w p).2 with
  | none =>
    obtain ⟨rest, hrest⟩ := session_cmds eng p (createContainer eng w p).1
    refine ⟨p.cfg.WritablePaths.map
      (fun q => (⟨.inherit, mkdirArgs p.containerName q⟩ : Cmd)) ++ rest, ?_⟩
    rw [run_eq_session env eng cfg w p hprep hcr, hrest, createContainer_cmds, hw,
      nameExists_cmds]
    simp
  | some e =>
    have hc : createContainer eng w p = ((createContainer eng w p).1, some e) := by
      rw [← hcr]
    refine ⟨[], ?_⟩
    simp only [Run, hprep]
    rw [hc]
    simp only []
    rw [createContainer_cmds, hw, nameExists_cmds]
    simp

theorem prepare_name (env : Host) (eng : Engine) (w0 w : World) (cfg : RuntimeConfig)
    (p : Prepared) (h : prepare env eng w0 cfg = (w, .ok p)) :
    p.containerName = resolveName env cfg ∧ p.cfg.ContainerName = cfg.ContainerName ∧
      p.cfg.Packages = cfg.Packages ∧ p.cfg.DisableNetwork = cfg.DisableNetwork ∧
      p.cfg.Shell = cfg.Shell := by
  obtain ⟨-, hn, -, -, cps, ms, -, -, hcfg, -⟩ := prepare_ok env eng w0 w cfg p h
  refine ⟨hn, ?_, ?_, ?_, ?_⟩ <;> rw [hcfg] <;> simp only [defaultWritable] <;> split <;> rfl

/-- C16 (as amended). After a successful preflight the creation command of Run,
the second command it issues, is `run`, the arguments of its options, the image
and `-f /dev/null`; among the options the `--name` flag stands once when the
name was generated, and twice when the name was supplied in the configuration
(BuildRunArgs emits it and Run appends it again), each time with the resolved
instance name as its value. -/
theorem createArgs_name_options (env : Host) (eng : Engine) (cfg : RuntimeConfig) (w : World)
    (p : Prepared) (hprep : prepare env eng ⟨[], []⟩ cfg = (w, .ok p)) :
    (∃ rest, (Run env eng cfg).1.cmds =
        nameExistsCmd :: ⟨if p.cfg.Verbose then .inherit else .quiet, createArgs p⟩ :: rest) ∧
      createArgs p =
        "run" :: (createOptions p).flatMap Opt.args ++ [p.img, "-f", "/dev/null"] ∧
      nameOptions (createOptions p) =
        (if cfg.ContainerName = "" then [⟨"--name", some (resolveName env cfg)⟩]
          else [⟨"--name", some (resolveName env cfg)⟩,
            ⟨"--name", some (resolveName env cfg)⟩]) := by
  refine ⟨run_cmds_head env eng cfg w p hprep, createArgs_options p, ?_⟩
  obtain ⟨hn, hc, -⟩ := prepare_name env eng _ w cfg p hprep
  have hsplit : nameOptions (createOptions p) =
      nameOptions (runOptions p.cfg) ++ [⟨"--name", some p.containerName⟩] := by
    simp only [nameOptions, createOptions, List.filter_append]
    rfl
  rw [hsplit, nameOptions_runOptions, hc, hn]
  by_cases h : cfg.ContainerName = ""
  · simp [h]
  · simp [h, resolveName]

/-- Witness of C16 (as amended): a supplied name stands twice. -/
theorem createArgs_name_options_witness :
    prepare sampleHost obligingEngine ⟨[], []⟩ labConfig =
        (⟨[nameExistsCmd], []⟩, .ok ⟨"lab1", labConfig, "homebrew/brew:latest"⟩) ∧
      nameOptions (createOptions ⟨"lab1", labConfig, "homebrew/brew:latest"⟩) =
        (if labConfig.ContainerName = "" then
          [⟨"--name", some (resolveName sampleHost labConfig)⟩]
          else [⟨"--name", some (resolveName sampleHost labConfig)⟩,
            ⟨"--name", some (resolveName sampleHost labConfig)⟩]) :=
  ⟨by rfl,
    (createArgs_name_options sampleHost obligingEngine labConfig ⟨[nameExistsCmd], []⟩
      ⟨"lab1", labConfig, "homebrew/brew:latest"⟩ (by rfl)).2.2⟩

/-- Counterexample to C16 as stated: for the supplied name `lab1` the preflight
succeeds and the creation arguments hold the `--name` flag twice. -/
theorem createArgs_name_twice :
    prepare sampleHost obligingEngine ⟨[], []⟩ labConfig =
        (⟨[nameExistsCmd], []⟩, .ok ⟨"lab1", labConfig, "homebrew/brew:latest"⟩) ∧
      createArgs ⟨"lab1", labConfig, "homebrew/brew:latest"⟩ =
        ["run", "--name", "lab1", "--detach", "--name", "lab1", "--entrypoint", "tail",
          "homebrew/brew:latest", "-f", "/dev/null"] ∧
      (createArgs ⟨"lab1", labConfig, "homebrew/brew:latest"⟩).count "--name" = 2 :=
  ⟨by rfl, by decide, by decide⟩

/-! ### shellQuote -/

/-- C17. shellQuote quotes only the strings that hold a space, a double quote,
a single quote or a dollar sign: a name holding `;`, `|`, `&`, a backquote, a
tab or a newline comes back unchanged, and the command text of hasShell then
holds the separator outside any quotes. -/
theorem shellQuote_leaves_separators :
    shellQuote "sh;id" = "sh;id" ∧
      shellQuote "sh|id" = "sh|id" ∧
      shellQuote "sh&id" = "sh&id" ∧
      shellQuote "sh\tid" = "sh\tid" ∧
      shellQuote "sh\nid" = "sh\nid" ∧
      shellQuote "x>y" = "x>y" ∧
      shellQuote (String.mk [Char.ofNat 96, 'i', 'd', Char.ofNat 96]) =
        String.mk [Char.ofNat 96, 'i', 'd', Char.ofNat 96] ∧
      (hasShellCmd "lab1" "sh;id").args =
        ["exec", "lab1", "sh", "-lc", "command -v sh;id >/dev/null 2>&1"] ∧
      (brewInstalledCmd "lab1" "jq;id").args =
        ["exec", "lab1", "sh", "-lc",
          "brew list --formula --versions jq;id >/dev/null 2>&1"] ∧
      shellQuote "a b" = "\x27a b\x27" ∧
      (∀ s : String, (∀ c ∈ s.data, c ≠ ' ' ∧ c ≠ '"' ∧ c ≠ Char.ofNat 39 ∧ c ≠ '$') →
        shellQuote s = s) := by
  refine ⟨by decide, by decide, by decide, by decide, by decide, by decide, by decide,
    by decide, by decide, by decide, ?_⟩
  intro s hs
  have : s.data.any (fun c => " \"\x27$".data.contains c) = false := by
    rw [List.any_eq_false]
    intro c hc
    obtain ⟨h1, h2, h3, h4⟩ := hs c hc
    have hd : " \"\x27$".data = [' ', '"', Char.ofNat 39, '$'] := by decide
    simp [hd, h1, h2, h3, h4]
  unfold shellQuote
  rw [this]
  rfl

/-! ### The choice of the interactive shell -/

theorem hasShell_eq (eng : Engine) (w : World) (container name : String) :
    hasShell eng w container name =
      (⟨w.cmds ++ [hasShellCmd container name], w.stderr⟩,
        (eng w.cmds (hasShellCmd container name)).err.isNone) := by
  simp only [hasShell, runDocker]
  cases (eng w.cmds (hasShellCmd container name)).err <;> rfl

theorem chooseShell_spec (eng : Engine) (container : String) (names : List String) :
    ∀ w : World,
      (∃ before chosen after, names = before ++ chosen :: after ∧
          allProbesFail eng container w.cmds before ∧
          (eng (w.cmds ++ probeCmds container before) (hasShellCmd container chosen)).err
            = none ∧
          chooseShell eng container names w =
            (⟨w.cmds ++ probeCmds container (before ++ [chosen]), w.stderr⟩, chosen)) ∨
        (allProbesFail eng container w.cmds names ∧
          chooseShell eng container names w =
            (⟨w.cmds ++ probeCmds container names, w.stderr⟩, "")) := by
  induction names with
  | nil =>
    intro w
    right
    refine ⟨?_, by simp [chooseShell, probeCmds]⟩
    intro b1 x b2 h
    simp at h
  | cons n rest ih =>
    intro w
    simp only [chooseShell, hasShell_eq]
    cases he : (eng w.cmds (hasShellCmd container n)).err with
    | none =>
      left
      refine ⟨[], n, rest, rfl, ?_, by simpa [probeCmds] using he, by simp [probeCmds]⟩
      intro b1 x b2 h
      simp at h
    | some e =>
      simp only [Option.isNone_some, Bool.false_eq_true, if_false]
      have hfail : ∀ l : List String, allProbesFail eng container
          (w.cmds ++ [hasShellCmd container n]) l → allProbesFail eng container w.cmds (n :: l) := by
        intro l hl b1 x b2 h
        cases b1 with
        | nil =>
          simp only [List.nil_append, List.cons.injEq] at h
          obtain ⟨rfl, -⟩ := h
          simp [probeCmds, he]
        | cons y b1' =>
          simp only [List.cons_append, List.cons.injEq] at h
          obtain ⟨rfl, h⟩ := h
          have := hl b1' x b2 h
          simpa [probeCmds, List.append_assoc] using this
      rcases ih ⟨w.cmds ++ [hasShellCmd container n], w.stderr⟩ with
        ⟨before, chosen, after, hn, hf, hs, hc⟩ | ⟨hf, hc⟩
      · left
        refine ⟨n :: before, chosen, after, by simp [hn], hfail before hf, ?_, ?_⟩
        · simpa [probeCmds, List.append_assoc] using hs
        · rw [hc]
          simp [probeCmds, List.append_assoc]
      · right
        refine ⟨hfail rest hf, ?_⟩
        rw [hc]
        simp [probeCmds, List.append_assoc]

theorem shellCandidates_ne_empty (preferred : String) :
    ∀ n ∈ shellCandidates preferred, n ≠ "" := by
  intro n hn
  unfold shellCandidates at hn
  by_cases h : preferred = ""
  · simp [h] at hn
    rcases hn with rfl | rfl | rfl | rfl <;> decide
  · simp [h] at hn
    rcases hn with rfl | rfl | rfl | rfl | rfl
    · exact h
    all_goals decide

/-- C12. execInteractiveShell probes the candidates (the preferred shell if it
is not empty, then fish, bash, zsh, sh) in order. Either some probe succeeds:
the candidates before the first success were probed and failed, no candidate
after it is probed, and the one command that follows the probes is the attach
`exec -it` to that candidate, whose outcome is returned. Or every probe fails:
only the probes are issued and the error is `no usable shell found`. -/
theorem execInteractiveShell_first_present (eng : Engine) (w : World)
    (container preferred : String) (verbose : Bool) :
    shellCandidates preferred =
        (if preferred = "" then [] else [preferred]) ++ ["fish", "bash", "zsh", "sh"] ∧
      ((∃ before chosen after, shellCandidates preferred = before ++ chosen :: after ∧
          allProbesFail eng container w.cmds before ∧
          (eng (w.cmds ++ probeCmds container before) (hasShellCmd container chosen)).err
            = none ∧
          (execInteractiveShell eng w container preferred verbose).1.cmds =
            w.cmds ++ probeCmds container (before ++ [chosen])
              ++ [attachCmd container chosen] ∧
          (execInteractiveShell eng w container preferred verbose).2 =
            (eng (w.cmds ++ probeCmds container (before ++ [chosen]))
              (attachCmd container chosen)).err) ∨
        (allProbesFail eng container w.cmds (shellCandidates preferred) ∧
          (execInteractiveShell eng w container preferred verbose).1.cmds =
            w.cmds ++ probeCmds container (shellCandidates preferred) ∧
          (execInteractiveShell eng w container preferred verbose).2 =
            some "no usable shell found")) := by
  constructor
  · simp only [shellCandidates]
    by_cases h : preferred = "" <;> simp [h]
  · rcases chooseShell_spec eng container (shellCandidates preferred) w with
      ⟨before, chosen, after, hn, hf, hs, hc⟩ | ⟨hf, hc⟩
    · left
      have hne : chosen ≠ "" :=
        shellCandidates_ne_empty preferred chosen (by rw [hn]; simp)
      refine ⟨before, chosen, after, hn, hf, hs, ?_, ?_⟩
      · simp only [execInteractiveShell, hc, hne, if_false, runCmdAttach, runCmdInherit,
          runDocker, attachCmd]
        cases verbose <;> simp [World.log]
      · simp only [execInteractiveShell, hc, hne, if_false, runCmdAttach, runCmdInherit,
          runDocker, attachCmd]
        cases verbose <;> simp [World.log]
    · right
      refine ⟨hf, ?_, ?_⟩ <;> simp [execInteractiveShell, hc]

/-! ### Preflight and creation failures -/

theorem resolveCopyPaths_ok (env : Host) (ps : List String) :
    ∀ cps, resolveCopyPaths env ps = .ok cps →
      ∀ p ∈ ps, mustExist env (normalizeHostPath env p) = none := by
  induction ps with
  | nil => intro cps _ p hp; simp at hp
  | cons q rest ih =>
    intro cps h p hp
    simp only [resolveCopyPaths] at h
    split at h
    · cases h
    · next hq =>
      split at h
      · cases h
      · next ps2 hrest =>
        rcases List.mem_cons.mp hp with rfl | hp
        · exact hq
        · exact ih ps2 hrest p hp

theorem resolveMount_eq (env : Host) (m : String) :
    resolveMount env m =
      if mountContainer m ≠ "" ∧ hasPrefix (mountContainer m) "/" = false then
        .error (.mountNotAbsolute (mountContainer m))
      else
        match mustExist env (normalizeHostPath env (mountHost m)) with
        | some err => .error (.mountHostInvalid err)
        | none =>
          .ok (if mountContainer m ≠ "" then
            normalizeHostPath env (mountHost m) ++ ":" ++ mountContainer m
            else normalizeHostPath env (mountHost m)) := by
  unfold resolveMount mountContainer mountHost normalizeHostPath
  by_cases hcol : strContains m ":" = true <;> simp [hcol]

theorem resolveMount_ok (env : Host) (m r : String) (h : resolveMount env m = .ok r) :
    ¬ (mountContainer m ≠ "" ∧ hasPrefix (mountContainer m) "/" = false) ∧
      mustExist env (normalizeHostPath env (mountHost m)) = none := by
  rw [resolveMount_eq] at h
  split at h
  · cases h
  · next hc =>
    refine ⟨hc, ?_⟩
    split at h
    · cases h
    · next hm => exact hm

theorem resolveMounts_ok (env : Host) (ms : List String) :
    ∀ rs, resolveMounts env ms = .ok rs →
      ∀ m ∈ ms, ¬ (mountContainer m ≠ "" ∧ hasPrefix (mountContainer m) "/" = false) ∧
        mustExist env (normalizeHostPath env (mountHost m)) = none := by
  induction ms with
  | nil => intro rs _ m hm; simp at hm
  | cons q rest ih =>
    intro rs h m hm
    simp only [resolveMounts] at h
    split at h
    · cases h
    · next r hq =>
      split at h
      · cases h
      · next rs2 hrest =>
        rcases List.mem_cons.mp hm with rfl | hm
        · exact resolveMount_ok env _ r hq
        · exact ih rs2 hrest m hm

theorem nameExists_iff (eng : Engine) (w : World) (name : String) :
    (nameExists eng w name).2 = true ↔ name ∈ knownInstances (eng w.cmds nameExistsCmd).out := by
  simp only [nameExists, runDocker, knownInstances, List.any_eq_true, List.mem_map, beq_iff_eq]

theorem prepare_error_cmds (env : Host) (eng : Engine) (cfg : RuntimeConfig) (w : World)
    (e : RunError) (h : prepare env eng ⟨[], []⟩ cfg = (w, .error e)) :
    w.cmds = [] ∨ w.cmds = [nameExistsCmd] := by
  simp only [prepare] at h
  split at h
  · simp only [Prod.mk.injEq] at h
    left
    rw [← h.1]
  · right
    have hw : w = (nameExists eng ⟨[], []⟩ (resolveName env cfg)).1 := by
      split at h
      · exact (Prod.mk.inj h).1.symm
      · split at h
        · exact (Prod.mk.inj h).1.symm
        · split at h
          · exact (Prod.mk.inj h).1.symm
          · exact (Prod.mk.inj h).1.symm
    rw [hw]
    rfl

/-- C13. When the instance name does not match the grammar, or is among the
instances the engine knows, or some copy-in path or mount host path does not
exist (in the normal form Run gives it), or some mount has a non-empty
container path that does not start with `/`, Run returns an error and has
issued nothing but, at most, the existence query: no create, exec or copy
command. When the preflight succeeds and the creation command fails, Run
returns the creation error and the creation command is the last command it
issued. -/
theorem run_aborts_on_preflight_or_creation (env : Host) (eng : Engine)
    (cfg : RuntimeConfig) :
    ((ValidateContainerName (resolveName env cfg) ≠ none ∨
        resolveName env cfg ∈ knownInstances (eng [] nameExistsCmd).out ∨
        (∃ p ∈ cfg.CopyPaths, mustExist env (normalizeHostPath env p) ≠ none) ∨
        (∃ m ∈ cfg.Mounts, mustExist env (normalizeHostPath env (mountHost m)) ≠ none) ∨
        (∃ m ∈ cfg.Mounts,
          mountContainer m ≠ "" ∧ hasPrefix (mountContainer m) "/" = false)) →
      (Run env eng cfg).2 ≠ none ∧
        ((Run env eng cfg).1.cmds = [] ∨ (Run env eng cfg).1.cmds = [nameExistsCmd])) ∧
    (∀ w p e, prepare env eng ⟨[], []⟩ cfg = (w, .ok p) →
      (createContainer eng w p).2 = some e →
        (Run env eng cfg).2 = some (.dockerRunFailed e) ∧
          (Run env eng cfg).1.cmds =
            [nameExistsCmd, ⟨if p.cfg.Verbose then .inherit else .quiet, createArgs p⟩]) := by
  constructor
  · intro hbad
    cases hprep : prepare env eng ⟨[], []⟩ cfg with
    | mk w r =>
      cases r with
      | error e =>
        have hrun : Run env eng cfg = (w, some e) := by simp only [Run, hprep]
        rw [hrun]
        exact ⟨by simp, prepare_error_cmds env eng cfg w e hprep⟩
      | ok p =>
        exfalso
        obtain ⟨-, hn, hmatch, hex, cps, ms, hcp, hms, -, -⟩ :=
          prepare_ok env eng _ w cfg p hprep
        rcases hbad with h | h | ⟨q, hq, h⟩ | ⟨m, hm, h⟩ | ⟨m, hm, h⟩
        · apply h
          rw [← hn]
          simp [ValidateContainerName, hmatch]
        · rw [← nameExists_iff eng ⟨[], []⟩, hex] at h
          cases h
        · exact h (resolveCopyPaths_ok env _ cps hcp q hq)
        · exact h (resolveMounts_ok env _ ms hms m hm).2
        · exact (resolveMounts_ok env _ ms hms m hm).1 h
  · intro w p e hprep hcr
    obtain ⟨hw, -⟩ := prepare_ok env eng _ w cfg p hprep
    have hc : createContainer eng w p = ((createContainer eng w p).1, some e) := by
      rw [← hcr]
    have hrun : Run env eng cfg =
        ((createContainer eng w p).1, some (.dockerRunFailed e)) := by
      simp only [Run, hprep]
      rw [hc]
    rw [hrun]
    refine ⟨rfl, ?_⟩
    simp only []
    rw [createContainer_cmds, hw, nameExists_cmds]
    rfl

/-- Witness of C13: a copy-in path that does not exist, and a creation command
that fails. -/
theorem run_aborts_on_preflight_or_creation_witness :
    ((∃ p ∈ missingCopyConfig.CopyPaths,
        mustExist sampleHost (normalizeHostPath sampleHost p) ≠ none) ∧
      (Run sampleHost obligingEngine missingCopyConfig).2 ≠ none ∧
      ((Run sampleHost obligingEngine missingCopyConfig).1.cmds = [] ∨
        (Run sampleHost obligingEngine missingCopyConfig).1.cmds = [nameExistsCmd])) ∧
    ((createContainer createFailsEngine ⟨[nameExistsCmd], []⟩
        ⟨"lab1", labConfig, "homebrew/brew:latest"⟩).2 = some "exit status 125" ∧
      (Run sampleHost createFailsEngine labConfig).2 =
        some (.dockerRunFailed "exit status 125") ∧
      (Run sampleHost createFailsEngine labConfig).1.cmds =
        [nameExistsCmd, ⟨if labConfig.Verbose then .inherit else .quiet,
          createArgs ⟨"lab1", labConfig, "homebrew/brew:latest"⟩⟩]) :=
  ⟨⟨⟨"/nope", by decide, by decide⟩,
      (run_aborts_on_preflight_or_creation sampleHost obligingEngine missingCopyConfig).1
        (Or.inr (Or.inr (Or.inl ⟨"/nope", by decide, by decide⟩)))⟩,
    ⟨by decide,
      (run_aborts_on_preflight_or_creation sampleHost createFailsEngine labConfig).2
        ⟨[nameExistsCmd], []⟩ ⟨"lab1", labConfig, "homebrew/brew:latest"⟩ "exit status 125"
        (by rfl) (by decide)⟩⟩

/-! ### Provisioning -/

theorem quietExt_refl (w : World) : w.quietExt w := ⟨[], by simp, by simp⟩

theorem quietExt_trans {a b c : World} (h1 : a.quietExt b) (h2 : b.quietExt c) :
    a.quietExt c := by
  obtain ⟨l1, e1, p1⟩ := h1
  obtain ⟨l2, e2, p2⟩ := h2
  refine ⟨l1 ++ l2, by rw [e2, e1, List.append_assoc], ?_⟩
  intro x hx
  rcases List.mem_append.mp hx with hx | hx
  · exact p1 x hx
  · exact p2 x hx

theorem quietExt_log (w : World) (line : String) : w.quietExt (w.log line) :=
  ⟨[], by simp [World.log], by simp⟩

theorem quietExt_logIf (w : World) (c : Prop) [Decidable c] (line : String) :
    w.quietExt (if c then w.log line else w) := by
  split
  · exact quietExt_log w line
  · exact quietExt_refl w

theorem quietExt_runDocker (eng : Engine) (w : World) (c : Cmd) (h : c.isInstall = false) :
    w.quietExt (runDocker eng w c).1 :=
  ⟨[c], rfl, by simpa using h⟩

theorem quietExt_runCmdInherit (eng : Engine) (w : World) (args : List String)
    (h : (⟨.inherit, args⟩ : Cmd).isInstall = false) : w.quietExt (runCmdInherit eng w args).1 :=
  quietExt_runDocker eng w _ h

theorem quietExt_of_cmds (w w' : World) (l : List Cmd) (h : w'.cmds = w.cmds ++ l)
    (hl : ∀ c ∈ l, c.isInstall = false) : w.quietExt w' := ⟨l, h, hl⟩

theorem isInstall_sub (c : Cmd) (h : c.sub ≠ some "exec") : c.isInstall = false := by
  simp [Cmd.isInstall, h]

theorem isInstall_of_third (stdio : Stdio) (a b x : String) (rest : List String)
    (h : x ≠ "env") : (⟨stdio, a :: b :: x :: rest⟩ : Cmd).isInstall = false := by
  simp only [Cmd.isInstall, Bool.and_eq_false_imp]
  intro _
  cases rest with
  | nil => simp [brewInstallTail]
  | cons r rs => simp [brewInstallTail, h]

theorem isInstall_probe (container name : String) :
    (hasShellCmd container name).isInstall = false ∧
      (brewInstalledCmd container name).isInstall = false :=
  ⟨isInstall_of_third _ _ _ _ _ (by decide), isInstall_of_third _ _ _ _ _ (by decide)⟩

theorem isInstall_attach (container shell : String) :
    (attachCmd container shell).isInstall = false := by
  simp [Cmd.isInstall, attachCmd, brewInstallTail]

theorem isInstall_installCmd (container : String) (pkgs : List String) :
    (installCmd container pkgs).isInstall = true := by
  simp [Cmd.isInstall, installCmd, brewInstallHead, brewInstallTail, Cmd.sub]

theorem createWritablePaths_quiet (eng : Engine) (container : String) (paths : List String)
    (w : World) : w.quietExt (createWritablePaths eng container paths w) := by
  refine ⟨_, createWritablePaths_cmds eng container paths w, ?_⟩
  intro c hc
  obtain ⟨p, -, rfl⟩ := List.mem_map.mp hc
  exact isInstall_of_third _ _ _ _ _ (by decide)

theorem copyLoop_quiet (eng : Engine) (verbose : Bool) (container homeDir : String)
    (paths : List String) :
    ∀ w : World, w.quietExt (copyLoop eng verbose container homeDir paths w).1 := by
  induction paths with
  | nil => intro w; exact quietExt_refl w
  | cons host rest ih =>
    intro w
    simp only [copyLoop]
    have h1 := quietExt_logIf w (verbose = true)
      ("+ docker cp " ++ host ++ " " ++ (container ++ ":" ++ homeDir))
    have h2 := quietExt_runCmdInherit eng
      (if verbose = true then
        w.log ("+ docker cp " ++ host ++ " " ++ (container ++ ":" ++ homeDir)) else w)
      ["cp", host, container ++ ":" ++ homeDir] (isInstall_sub _ (by simp [Cmd.sub]))
    split
    · exact quietExt_trans h1 h2
    · refine quietExt_trans (quietExt_trans h1 h2) (quietExt_trans ?_ (ih _))
      exact quietExt_trans (quietExt_logIf _ (verbose = true) _)
        (quietExt_runCmdInherit eng _ _ (isInstall_of_third _ _ _ _ _ (by decide)))

theorem getContainerHome_quiet (eng : Engine) (w : World) (container : String) :
    w.quietExt (getContainerHome eng w container).1 := by
  have h := quietExt_runDocker eng w
    ⟨.capture, ["exec", container, "sh", "-lc", "printf %s \"$HOME\""]⟩
    (isInstall_of_third _ _ _ _ _ (by decide))
  simp only [getContainerHome]
  split
  · exact h
  · split <;> exact h

theorem copyFiles_quiet (eng : Engine) (cfg : RuntimeConfig) (container : String) (w : World) :
    w.quietExt (copyFiles eng cfg container w).1 := by
  simp only [copyFiles]
  split
  · exact quietExt_trans (getContainerHome_quiet eng w container) (copyLoop_quiet _ _ _ _ _ _)
  · exact quietExt_refl w

theorem hasShell_quiet (eng : Engine) (w : World) (container name : String) :
    w.quietExt (hasShell eng w container name).1 := by
  rw [hasShell_eq]
  exact ⟨[hasShellCmd container name], rfl, by simpa using (isInstall_probe container name).1⟩

theorem chooseShell_quiet (eng : Engine) (container : String) (names : List String) :
    ∀ w : World, w.quietExt (chooseShell eng container names w).1 := by
  induction names with
  | nil => intro w; exact quietExt_refl w
  | cons name rest ih =>
    intro w
    simp only [chooseShell]
    split
    · exact hasShell_quiet eng w container name
    · exact quietExt_trans (hasShell_quiet eng w container name) (ih _)

theorem execInteractiveShell_quiet (eng : Engine) (w : World) (container preferred : String)
    (verbose : Bool) : w.quietExt (execInteractiveShell eng w container preferred verbose).1 := by
  simp only [execInteractiveShell]
  have h1 := chooseShell_quiet eng container (shellCandidates preferred) w
  split
  · exact h1
  · exact quietExt_trans h1 (quietExt_trans (quietExt_logIf _ (verbose = true) _)
      (quietExt_runCmdInherit eng _ _ (isInstall_attach _ _)))

theorem teardownCmds_quiet (container : String) (cfg : RuntimeConfig) :
    ∀ c ∈ teardownCmds container cfg, c.isInstall = false := by
  intro c hc
  have h := teardownCmds_isTeardown container cfg c hc
  apply isInstall_sub
  intro he
  simp [Cmd.isTeardown, he] at h

theorem shellAndStop_quiet (eng : Engine) (cfg : RuntimeConfig) (container : String)
    (w : World) : w.quietExt (shellAndStop eng cfg container w).1 := by
  have hx := execInteractiveShell_quiet eng w container cfg.Shell cfg.Verbose
  have hl : ∀ w2 : World, w2.quietExt
      (if cfg.Verbose = true then
        if cfg.GracefulStop = true then w2.log ("+ docker stop --timeout 10 " ++ container)
        else w2.log ("+ docker kill " ++ container)
      else w2) := by
    intro w2
    split
    · split <;> exact quietExt_log _ _
    · exact quietExt_refl _
  have hg : ∀ w2 : World, w2.quietExt (gracefulStop eng w2 container cfg).1 :=
    fun w2 => ⟨_, gracefulStop_cmds eng w2 container cfg, teardownCmds_quiet container cfg⟩
  simp only [shellAndStop, gracefulStop_none]
  refine quietExt_trans (quietExt_trans ?_ (hl _)) (hg _)
  split
  · exact quietExt_trans hx (quietExt_log _ _)
  · exact hx

theorem brewInstalled_eq (eng : Engine) (w : World) (container pkg : String) :
    brewInstalled eng w container pkg =
      (⟨w.cmds ++ [brewInstalledCmd container pkg], w.stderr⟩,
        (eng w.cmds (brewInstalledCmd container pkg)).err.isNone) := by
  simp only [brewInstalled, runDocker]
  cases (eng w.cmds (brewInstalledCmd container pkg)).err <;> rfl

/-- The loop over the requested packages issues one probe per package and keeps
the packages whose probe failed. -/
theorem filterMissing_eq (eng : Engine) (container : String) (pkgs : List String) :
    ∀ (w : World) (acc : List String),
      filterMissing eng container pkgs w acc =
        (⟨w.cmds ++ pkgs.map (brewInstalledCmd container), w.stderr⟩,
          acc ++ notInstalled eng container w.cmds pkgs) := by
  induction pkgs with
  | nil => intro w acc; simp [filterMissing, notInstalled]
  | cons p rest ih =>
    intro w acc
    simp only [filterMissing, brewInstalled_eq, ih, notInstalled]
    cases (eng w.cmds (brewInstalledCmd container p)).err <;> simp

theorem notInstalled_nil (eng : Engine) (container : String) (pkgs : List String)
    (h : ∀ hist q, q ∈ pkgs → (eng hist (brewInstalledCmd container q)).err = none) :
    ∀ hist, notInstalled eng container hist pkgs = [] := by
  induction pkgs with
  | nil => intro hist; rfl
  | cons p rest ih =>
    intro hist
    simp only [notInstalled, h hist p (List.mem_cons_self _ _), if_true, List.nil_append]
    exact ih (fun hist q hq => h hist q (List.mem_cons_of_mem _ hq)) _

theorem installPackages_cmds (eng : Engine) (cfg : RuntimeConfig) (container : String)
    (w : World) (hnet : cfg.DisableNetwork = false) (hpk : cfg.Packages ≠ []) :
    (installPackages eng cfg container w).cmds =
      w.cmds ++ cfg.Packages.map (brewInstalledCmd container)
        ++ (if notInstalled eng container w.cmds cfg.Packages = [] then []
          else [installCmd container (notInstalled eng container w.cmds cfg.Packages)]) := by
  have hlen : cfg.Packages.length > 0 := List.length_pos.mpr hpk
  simp only [installPackages, hlen, hnet, filterMissing_eq, List.nil_append, true_and,
    Bool.not_false, if_true]
  by_cases hm : notInstalled eng container w.cmds cfg.Packages = []
  · simp [hm]
  · have hl : (notInstalled eng container w.cmds cfg.Packages).length > 0 :=
      List.length_pos.mpr hm
    simp only [hl, hm, if_true, if_false, runCmdInherit, runDocker, installCmd]
    split <;> cases cfg.Verbose <;> simp [World.log]

theorem filter_install_quiet (l : List Cmd) (h : ∀ c ∈ l, c.isInstall = false) :
    l.filter Cmd.isInstall = [] := by
  rw [List.filter_eq_nil_iff]
  intro c hc
  simp [h c hc]

/-- The fish step issues at most one install command, the one of fish; it
issues none when the probe of fish succeeds, and none when the preferred shell
is neither empty nor fish. -/
theorem ensureFish_installs (eng : Engine) (cfg : RuntimeConfig) (container : String)
    (w : World) :
    ∃ l, (ensureFish eng cfg container w).cmds = w.cmds ++ l ∧
      (l.filter Cmd.isInstall = [] ∨ l.filter Cmd.isInstall = [installCmd container ["fish"]]) ∧
      ((∀ hist, (eng hist (hasShellCmd container "fish")).err = none) →
        l.filter Cmd.isInstall = []) ∧
      (cfg.Shell ≠ "" → cfg.Shell ≠ "fish" → l.filter Cmd.isInstall = []) := by
  have hp := (isInstall_probe container "fish").1
  have hi := isInstall_installCmd container ["fish"]
  simp only [ensureFish]
  split
  · next hcond =>
    have hsh : cfg.Shell ≠ "" → cfg.Shell ≠ "fish" → False := by
      intro h1 h2
      rcases hcond.1 with h | h
      · exact h1 h
      · exact h2 h
    simp only [hasShell_eq]
    cases he : (eng w.cmds (hasShellCmd container "fish")).err with
    | none =>
      refine ⟨[hasShellCmd container "fish"], by simp, Or.inl ?_, fun _ => ?_,
        fun _ _ => ?_⟩ <;> simp [List.filter, hp]
    | some e =>
      refine ⟨[hasShellCmd container "fish", installCmd container ["fish"]], ?_, Or.inr ?_,
        fun h => ?_, fun h1 h2 => (hsh h1 h2).elim⟩
      · simp only [Option.isNone_some, Bool.not_false, if_true, runCmdInherit, runDocker,
          installCmd]
        cases cfg.Verbose <;> simp [World.log]
      · simp [List.filter, hp, hi]
      · rw [h] at he
        cases he
  · exact ⟨[], by simp, Or.inl rfl, fun _ => rfl, fun _ _ => rfl⟩

/-- The provisioning part of a session: either the session stops with an error
before any install command, or it runs to its end, and its install commands are
the one of the packages found missing, if any, followed by at most the one of
fish. -/
theorem session_installs (eng : Engine) (p : Prepared) (w : World)
    (hnet : p.cfg.DisableNetwork = false) (hpk : p.cfg.Packages ≠ []) :
    ((session eng p w).2 ≠ none ∧ w.quietExt (session eng p w).1) ∨
      ((session eng p w).2 = none ∧ ∃ w2 post, w.quietExt w2 ∧
        (session eng p w).1.cmds =
          w2.cmds ++ p.cfg.Packages.map (brewInstalledCmd p.containerName)
            ++ (if notInstalled eng p.containerName w2.cmds p.cfg.Packages = [] then []
              else [installCmd p.containerName
                (notInstalled eng p.containerName w2.cmds p.cfg.Packages)])
            ++ post ∧
        (post.filter Cmd.isInstall = [] ∨
          post.filter Cmd.isInstall = [installCmd p.containerName ["fish"]]) ∧
        ((∀ hist, (eng hist (hasShellCmd p.containerName "fish")).err = none) →
          post.filter Cmd.isInstall = []) ∧
        (p.cfg.Shell ≠ "" → p.cfg.Shell ≠ "fish" → post.filter Cmd.isInstall = [])) := by
  have h1 := createWritablePaths_quiet eng p.containerName p.cfg.WritablePaths w
  have h2 := copyFiles_quiet eng p.cfg p.containerName
    (createWritablePaths eng p.containerName p.cfg.WritablePaths w)
  simp only [session]
  split
  · next w2 err heq =>
    left
    rw [heq] at h2
    exact ⟨by simp, quietExt_trans h1 h2⟩
  · next w2 heq =>
    right
    rw [heq] at h2
    obtain ⟨lf, hlf, hf1, hf2, hf3⟩ := ensureFish_installs eng p.cfg p.containerName
      (installPackages eng p.cfg p.containerName w2)
    obtain ⟨ls, hls, hsq⟩ := shellAndStop_quiet eng p.cfg p.containerName
      (ensureFish eng p.cfg p.containerName (installPackages eng p.cfg p.containerName w2))
    have hsf := filter_install_quiet ls hsq
    refine ⟨(shellAndStop_spec eng p.cfg p.containerName _).1, w2, lf ++ ls,
      quietExt_trans h1 h2, ?_, ?_, ?_, ?_⟩
    · rw [hls, hlf, installPackages_cmds eng p.cfg p.containerName w2 hnet hpk]
      simp only [List.append_assoc]
    · simpa [List.filter_append, hsf] using hf1
    · intro h
      simpa [List.filter_append, hsf] using hf2 h
    · intro h1 h2
      simpa [List.filter_append, hsf] using hf3 h1 h2

theorem prepare_quiet (env : Host) (eng : Engine) (cfg : RuntimeConfig) :
    (⟨[], []⟩ : World).quietExt (prepare env eng ⟨[], []⟩ cfg).1 := by
  cases hprep : prepare env eng ⟨[], []⟩ cfg with
  | mk w r =>
    have hw : w.cmds = [] ∨ w.cmds = [nameExistsCmd] := by
      cases r with
      | error e => exact prepare_error_cmds env eng cfg w e hprep
      | ok p =>
        right
        rw [(prepare_ok env eng _ w cfg p hprep).1]
        rfl
    rcases hw with hw | hw
    · exact ⟨[], by simp [hw], by simp⟩
    · exact ⟨[nameExistsCmd], by simp [hw], by
        intro c hc
        simp only [List.mem_singleton] at hc
        subst hc
        rfl⟩

theorem createContainer_quiet (eng : Engine) (w : World) (p : Prepared) :
    w.quietExt (createContainer eng w p).1 := by
  refine ⟨_, createContainer_cmds eng w p, ?_⟩
  intro c hc
  simp only [List.mem_singleton] at hc
  subst hc
  apply isInstall_sub
  simp [Cmd.sub, createArgs_head]

/-- The install commands of a run with network access and requested packages:
either the run stops with an error and has issued none, or it runs to its end
and has issued the install command of the packages found missing, if any, and
after it at most the install command of fish. -/
theorem run_installs (env : Host) (eng : Engine) (cfg : RuntimeConfig)
    (hnet : cfg.DisableNetwork = false) (hpk : cfg.Packages ≠ []) :
    ((Run env eng cfg).2 ≠ none ∧ ∀ c ∈ (Run env eng cfg).1.cmds, c.isInstall = false) ∨
      ((Run env eng cfg).2 = none ∧ ∃ pre post,
        (Run env eng cfg).1.cmds =
          pre ++ cfg.Packages.map (brewInstalledCmd (resolveName env cfg))
            ++ (if notInstalled eng (resolveName env cfg) pre cfg.Packages = [] then []
              else [installCmd (resolveName env cfg)
                (notInstalled eng (resolveName env cfg) pre cfg.Packages)])
            ++ post ∧
        (∀ c ∈ pre, c.isInstall = false) ∧
        (post.filter Cmd.isInstall = [] ∨
          post.filter Cmd.isInstall = [installCmd (resolveName env cfg) ["fish"]]) ∧
        ((∀ hist, (eng hist (hasShellCmd (resolveName env cfg) "fish")).err = none) →
          post.filter Cmd.isInstall = []) ∧
        (cfg.Shell ≠ "" → cfg.Shell ≠ "fish" → post.filter Cmd.isInstall = [])) := by
  have hq0 := prepare_quiet env eng cfg
  cases hprep : prepare env eng ⟨[], []⟩ cfg with
  | mk w r =>
    rw [hprep] at hq0
    cases r with
    | error e =>
      left
      have hrun : Run env eng cfg = (w, some e) := by simp only [Run, hprep]
      rw [hrun]
      obtain ⟨l, hl, hlq⟩ := hq0
      refine ⟨by simp, ?_⟩
      intro c hc
      rw [hl] at hc
      exact hlq c (by simpa using hc)
    | ok p =>
      obtain ⟨hn, -, hpkgs, hdn, hshell⟩ := prepare_name env eng _ w cfg p hprep
      have hq1 := quietExt_trans hq0 (createContainer_quiet eng w p)
      cases hcr : (createContainer eng w p).2 with
      | some e =>
        left
        have hc : createContainer eng w p = ((createContainer eng w p).1, some e) := by
          rw [← hcr]
        have hrun : Run env eng cfg =
            ((createContainer eng w p).1, some (.dockerRunFailed e)) := by
          simp only [Run, hprep]
          rw [hc]
        rw [hrun]
        obtain ⟨l, hl, hlq⟩ := hq1
        refine ⟨by simp, ?_⟩
        intro c hc
        rw [hl] at hc
        exact hlq c (by simpa using hc)
      | none =>
        rw [run_eq_session env eng cfg w p hprep hcr]
        rcases session_installs eng p (createContainer eng w p).1 (by rw [hdn, hnet])
            (by rw [hpkgs]; exact hpk) with
          ⟨herr, hq⟩ | ⟨hok, w2, post, hq, hcmds, hf1, hf2, hf3⟩
        · left
          obtain ⟨l, hl, hlq⟩ := quietExt_trans hq1 hq
          refine ⟨herr, ?_⟩
          intro c hc
          rw [hl] at hc
          exact hlq c (by simpa using hc)
        · right
          obtain ⟨l, hl, hlq⟩ := quietExt_trans hq1 hq
          refine ⟨hok, w2.cmds, post, ?_, ?_, ?_, ?_, ?_⟩
          · rw [hcmds, hpkgs, hn]
          · intro c hc
            rw [hl] at hc
            exact hlq c (by simpa using hc)
          · rw [← hn]; exact hf1
          · rw [← hn]; exact hf2
          · rw [← hshell]; exact hf3

/-- C11 (as amended). For every configuration with network access permitted
and a non-empty package list: either Run stops with an error and has issued no
install command, or it runs to its end, having probed every requested package
in order and then issued at most one install command for the requested
packages, whose package arguments are the requested packages whose probe
answered `not installed`, in the requested order (none when every probe
answered `installed`), followed later by at most one further install command,
the one of fish, which is not issued when the preferred shell is neither empty
nor fish. A run thus holds at most two install commands. When every requested
package is installed and fish is present, Run issues no install command. -/
theorem run_package_install (env : Host) (eng : Engine) (cfg : RuntimeConfig)
    (hnet : cfg.DisableNetwork = false) (hpk : cfg.Packages ≠ []) :
    (((Run env eng cfg).2 ≠ none ∧ (Run env eng cfg).1.cmds.filter Cmd.isInstall = []) ∨
      ((Run env eng cfg).2 = none ∧ ∃ pre post,
        (Run env eng cfg).1.cmds =
          pre ++ cfg.Packages.map (brewInstalledCmd (resolveName env cfg))
            ++ (if notInstalled eng (resolveName env cfg) pre cfg.Packages = [] then []
              else [installCmd (resolveName env cfg)
                (notInstalled eng (resolveName env cfg) pre cfg.Packages)])
            ++ post ∧
        (Run env eng cfg).1.cmds.filter Cmd.isInstall =
          (if notInstalled eng (resolveName env cfg) pre cfg.Packages = [] then []
            else [installCmd (resolveName env cfg)
              (notInstalled eng (resolveName env cfg) pre cfg.Packages)])
            ++ post.filter Cmd.isInstall ∧
        (post.filter Cmd.isInstall = [] ∨
          post.filter Cmd.isInstall = [installCmd (resolveName env cfg) ["fish"]]) ∧
        (cfg.Shell ≠ "" → cfg.Shell ≠ "fish" → post.filter Cmd.isInstall = []))) ∧
    ((Run env eng cfg).1.cmds.filter Cmd.isInstall).length ≤ 2 ∧
    ((∀ hist q, q ∈ cfg.Packages →
        (eng hist (brewInstalledCmd (resolveName env cfg) q)).err = none) →
      (∀ hist, (eng hist (hasShellCmd (resolveName env cfg) "fish")).err = none) →
        (Run env eng cfg).1.cmds.filter Cmd.isInstall = []) := by
  have hfilter : ∀ pre post : List Cmd, (∀ c ∈ pre, c.isInstall = false) →
      (pre ++ cfg.Packages.map (brewInstalledCmd (resolveName env cfg))
        ++ (if notInstalled eng (resolveName env cfg) pre cfg.Packages = [] then []
          else [installCmd (resolveName env cfg)
            (notInstalled eng (resolveName env cfg) pre cfg.Packages)])
        ++ post).filter Cmd.isInstall =
      (if notInstalled eng (resolveName env cfg) pre cfg.Packages = [] then []
        else [installCmd (resolveName env cfg)
          (notInstalled eng (resolveName env cfg) pre cfg.Packages)])
        ++ post.filter Cmd.isInstall := by
    intro pre post hpre
    have hprobes : (cfg.Packages.map (brewInstalledCmd (resolveName env cfg))).filter
        Cmd.isInstall = [] := by
      apply filter_install_quiet
      intro c hc
      obtain ⟨q, -, rfl⟩ := List.mem_map.mp hc
      exact (isInstall_probe _ q).2
    simp only [List.filter_append, filter_install_quiet pre hpre, hprobes, List.nil_append]
    split
    · rfl
    · simp [List.filter, isInstall_installCmd]
  rcases run_installs env eng cfg hnet hpk with
    ⟨herr, hq⟩ | ⟨hok, pre, post, hcmds, hpre, hf1, hf2, hf3⟩
  · have hnil := filter_install_quiet _ hq
    exact ⟨Or.inl ⟨herr, hnil⟩, by simp [hnil], fun _ _ => hnil⟩
  · have hall := hfilter pre post hpre
    refine ⟨Or.inr ⟨hok, pre, post, hcmds, ?_, hf1, hf3⟩, ?_, ?_⟩
    · rw [hcmds]
      exact hall
    · rw [hcmds, hall]
      rcases hf1 with h | h <;> rw [h] <;> split <;> simp
    · intro hinst hfish
      rw [hcmds, hall, hf2 hfish, notInstalled_nil eng _ cfg.Packages hinst pre]
      rfl

/-- Witness of C11 (as amended): two requested packages, both installed, fish
present. -/
theorem run_package_install_witness :
    packagesConfig.DisableNetwork = false ∧ packagesConfig.Packages ≠ [] ∧
      ((Run sampleHost obligingEngine packagesConfig).1.cmds.filter Cmd.isInstall).length ≤ 2 ∧
      (Run sampleHost obligingEngine packagesConfig).1.cmds.filter Cmd.isInstall = [] :=
  ⟨rfl, by decide,
    (run_package_install sampleHost obligingEngine packagesConfig rfl (by decide)).2.1,
    (run_package_install sampleHost obligingEngine packagesConfig rfl (by decide)).2.2
      (fun _ _ _ => rfl) (fun _ => rfl)⟩

/-- Counterexample to C11 as stated: with network access, the requested packages
`jq` and `yara` and no preferred shell, on an engine whose probes all fail, Run
issues two install commands, the one of the two packages and the one of fish;
and with the one requested package `fish` it issues the install command of fish
twice. -/
theorem run_two_install_commands :
    packagesConfig.DisableNetwork = false ∧ packagesConfig.Packages = ["jq", "yara"] ∧
      (Run sampleHost noShellEngine packagesConfig).1.cmds.filter Cmd.isInstall =
        [installCmd "lab1" ["jq", "yara"], installCmd "lab1" ["fish"]] ∧
      fishPackageConfig.DisableNetwork = false ∧ fishPackageConfig.Packages = ["fish"] ∧
      (Run sampleHost noShellEngine fishPackageConfig).1.cmds.filter Cmd.isInstall =
        [installCmd "lab1" ["fish"], installCmd "lab1" ["fish"]] := by
  decide

/-! ### The profile store -/

theorem length_ne_zero_of_ne_empty (d : String) (h : d ≠ "") : ¬ d.length = 0 := by
  intro hl
  apply h
  cases d with
  | mk l =>
    have : l = [] := List.length_eq_zero.mp hl
    subst this
    rfl

/-- Saving under a name without extension, from an empty store. -/
theorem save_plain (codec : Codec) (p : Profile) (d : String)
    (hm : codec.yamlMarshal p = .ok d) :
    Save codec (some "/home/u") [] "test" p =
      ([("/home/u/.lazylab/profiles/test.yaml", d)], none) := by
  have h : Save codec (some "/home/u") [] "test" p =
      (match codec.yamlMarshal p with
        | .error err => (([] : Files), some err)
        | .ok b => ([("/home/u/.lazylab/profiles/test.yaml", b)], none)) := by
    unfold Save
    rfl
  rw [h, hm]

/-- Saving under a name with the extension `.yml`, from an empty store. -/
theorem save_yml (codec : Codec) (p : Profile) (d : String)
    (hm : codec.yamlMarshal p = .ok d) :
    Save codec (some "/home/u") [] "demo.yml" p =
      ([("/home/u/.lazylab/profiles/demo.yml", d)], none) := by
  have h : Save codec (some "/home/u") [] "demo.yml" p =
      (match codec.yamlMarshal p with
        | .error err => (([] : Files), some err)
        | .ok b => ([("/home/u/.lazylab/profiles/demo.yml", b)], none)) := by
    unfold Save
    rfl
  rw [h, hm]

/-- Saving under a name with the extension `.json`, from an empty store. -/
theorem save_json (codec : Codec) (p : Profile) (d : String)
    (hm : codec.jsonMarshal p = .ok d) :
    Save codec (some "/home/u") [] "demo.json" p =
      ([("/home/u/.lazylab/profiles/demo.json", d)], none) := by
  have h : Save codec (some "/home/u") [] "demo.json" p =
      (match codec.jsonMarshal p with
        | .error err => (([] : Files), some err)
        | .ok b => ([("/home/u/.lazylab/profiles/demo.json", b)], none)) := by
    unfold Save
    rfl
  rw [h, hm]

theorem load_plain (codec : Codec) (p : Profile) (d : String) (hd : d ≠ "")
    (hu : codec.yamlUnmarshal d = .ok p) :
    Load codec (some "/home/u") [("/home/u/.lazylab/profiles/test.yaml", d)] "test" =
      (p, none) := by
  have h : Load codec (some "/home/u") [("/home/u/.lazylab/profiles/test.yaml", d)] "test" =
      (if d.length = 0 then (default, some ("profile not found: " ++ "test"))
        else match codec.yamlUnmarshal d with
          | .error err => (default, some err)
          | .ok q => (q, none)) := by
    unfold Load
    rfl
  rw [h, if_neg (length_ne_zero_of_ne_empty d hd), hu]

theorem load_json (codec : Codec) (p : Profile) (d : String) (hd : d ≠ "")
    (hu : codec.jsonUnmarshal d = .ok p) :
    Load codec (some "/home/u") [("/home/u/.lazylab/profiles/demo.json", d)] "demo" =
      (p, none) := by
  have h : Load codec (some "/home/u") [("/home/u/.lazylab/profiles/demo.json", d)] "demo" =
      (if d.length = 0 then (default, some ("profile not found: " ++ "demo"))
        else match codec.jsonUnmarshal d with
          | .error err => (default, some err)
          | .ok q => (q, none)) := by
    unfold Load
    rfl
  rw [h, if_neg (length_ne_zero_of_ne_empty d hd), hu]

/-- C15. From an empty store under the home `/home/u`, with any serialisation
library: Save under the name `demo.yml` succeeds and writes the file
`demo.yml`, after which Load of `demo` fails with `profile not found` and List
returns no name. Under the names `test` and `demo.json` the round trip holds
whenever the library reads back what it wrote: Load of the name without its
extension returns the profile, and List returns exactly that name. -/
theorem save_yml_is_lost (codec : Codec) (p : Profile) (d : String)
    (hm : codec.yamlMarshal p = .ok d) :
    (Save codec (some "/home/u") [] "demo.yml" p =
        ([("/home/u/.lazylab/profiles/demo.yml", d)], none) ∧
      Load codec (some "/home/u") (Save codec (some "/home/u") [] "demo.yml" p).1 "demo" =
        (default, some "profile not found: demo") ∧
      listProfiles (some "/home/u") (Save codec (some "/home/u") [] "demo.yml" p).1 =
        ([], none)) ∧
    (d ≠ "" → codec.yamlUnmarshal d = .ok p →
      (Save codec (some "/home/u") [] "test" p).2 = none ∧
      Load codec (some "/home/u") (Save codec (some "/home/u") [] "test" p).1 "test" =
        (p, none) ∧
      listProfiles (some "/home/u") (Save codec (some "/home/u") [] "test" p).1 =
        (["test"], none)) ∧
    (∀ j, codec.jsonMarshal p = .ok j → j ≠ "" → codec.jsonUnmarshal j = .ok p →
      (Save codec (some "/home/u") [] "demo.json" p).2 = none ∧
      Load codec (some "/home/u") (Save codec (some "/home/u") [] "demo.json" p).1 "demo" =
        (p, none) ∧
      listProfiles (some "/home/u") (Save codec (some "/home/u") [] "demo.json" p).1 =
        (["demo"], none)) := by
  refine ⟨?_, ?_, ?_⟩
  · rw [save_yml codec p d hm]
    exact ⟨rfl, rfl, rfl⟩
  · intro hd hu
    rw [save_plain codec p d hm]
    exact ⟨rfl, load_plain codec p d hd hu, rfl⟩
  · intro j hj hjd hju
    rw [save_json codec p j hj]
    exact ⟨rfl, load_json codec p j hjd hju, rfl⟩

/-- Witness of C15: the toy serialisation and the profile named `demo`. -/
theorem save_yml_is_lost_witness :
    nameCodec.yamlMarshal { Name := "demo" } = .ok "name: demo" ∧
      Load nameCodec (some "/home/u")
          (Save nameCodec (some "/home/u") [] "demo.yml" { Name := "demo" }).1 "demo" =
        (default, some "profile not found: demo") ∧
      listProfiles (some "/home/u")
          (Save nameCodec (some "/home/u") [] "demo.yml" { Name := "demo" }).1 = ([], none) :=
  ⟨rfl, (save_yml_is_lost nameCodec { Name := "demo" } "name: demo" rfl).1.2⟩

end LazyLab
